import Mathlib

/-!
Verification of the chia-blockchain trade manager excerpt
(`chia/wallet/trade_manager.py`) against its natural-language specification.

The Python source is embedded shallowly: the trade manager's pure decision
logic becomes Lean functions over explicit state; the external collaborators
(wallet state manager, per-asset wallets, full node, offer codec) become an
`Env` structure of function fields, each modelling exactly the capability the
source calls through.  Machine integers are modelled as `Nat`/`Int` (all the
quantities involved are non-negative amounts well below 2^64, and the source
never relies on wrap-around).
-/

namespace ChiaTrade

/-- A ledger coin (`chia.types.blockchain_format.coin.Coin`): parent coin id,
puzzle hash, amount. -/
structure Coin where
  parentCoinInfo : Nat
  puzzleHash : Nat
  amount : Nat
  deriving DecidableEq, Repr

/-- `Coin.name()`: the coin id.  The source computes a collision-resistant hash
of the three fields; we model it with the injective pairing of the fields. -/
def Coin.name (c : Coin) : Nat :=
  Nat.pair c.parentCoinInfo (Nat.pair c.puzzleHash c.amount)

/-- `CoinState` (`chia.protocols.wallet_protocol`): a coin together with its
created / spent heights as known to the node. -/
structure CoinState where
  coin : Coin
  createdHeight : Option Nat
  spentHeight : Option Nat
  deriving DecidableEq, Repr

/-- Modelled from the spec: `TradeStatus` (`chia.wallet.trading.trade_status`)
is outside the excerpt; the spec lists exactly these six statuses. -/
inductive TradeStatus where
  | pendingAccept
  | pendingConfirm
  | pendingCancel
  | cancelled
  | confirmed
  | failed
  deriving DecidableEq, Repr

/-- Modelled from the spec: the `Offer` value object
(`chia.wallet.trading.offer`) is outside the excerpt.  We model it by the
observations the trade manager makes of it: `get_primary_coins()`,
`get_offered_coins()` (flattened over assets), `get_root_removal`,
`bundle.removals()`, `get_involved_coins()`, `arbitrage()`, `driver_dict`
(puzzle infos abstracted to `Nat`), and its content-hash `name()`. -/
structure Offer where
  primaryCoins : List Coin
  offeredCoins : List Coin
  rootRemoval : Coin → Coin
  bundleRemovals : List Coin
  involvedCoins : List Coin
  arbitrage : List (Option Nat × Int)
  driverDict : List (Nat × Nat)
  offerName : Nat

/-- The fields of `TransactionRecord` that the trade manager reads or writes. -/
structure TransactionRecordM where
  confirmedAtHeight : Option Nat
  toPuzzleHash : Nat
  amount : Nat
  feeAmount : Nat
  confirmed : Bool
  additions : List Coin
  removals : List Coin
  txName : Nat
  deriving DecidableEq, Repr

/-- The fields of `TradeRecord` the excerpt uses.  The `offer` bytes are
modelled as the decoded `Offer` itself (`Offer.from_bytes` composed with
`bytes` is the identity on well-formed records). -/
structure TradeRecord where
  tradeId : Nat
  status : TradeStatus
  offer : Offer
  coinsOfInterest : List Coin
  confirmedAtIndex : Option Nat
  isMyOffer : Bool

/-- Wallet type switch used by the source (`WalletType.STANDARD_WALLET`). -/
inductive WalletType where
  | standardWallet
  | other
  deriving DecidableEq, Repr

/-- Modelled from the spec: the per-asset wallet capability set (spec section 6).
`assetId = none` models a wallet without the optional `get_asset_id`
capability; the `has...` flags model presence of the duck-typed methods the
source probes with `callable(getattr(...))`. -/
structure WalletModel where
  wid : Nat
  wtype : WalletType
  assetId : Option Nat
  hasGetCoinsToOffer : Bool
  coinsToOffer : Option Nat → Nat → Nat → List Coin
  hasCreateOfferTransactions : Bool
  hasGetPuzzleInfo : Bool
  puzzleInfo : Nat → Nat
  newPuzzleHash : Nat
  selectCoins : Nat → List Coin → List Coin

/-- Modelled from the spec: the external collaborators of the trade manager
(wallet state manager, full node view, offer assembly).  `ledger` is the
node's coin-state table; `ourCoinIds` the ids present in the wallet's own
coin store; `calcTxRecords` abstracts `calculate_tx_records_for_offer`
(whose output the reconciliation code only pipes through); `assembleOffer`
abstracts `Offer.notarize_payments` / `calculate_announcements` /
`SpendBundle.aggregate` / the `Offer` constructor; `aggregate` abstracts
`Offer.aggregate`; `offerIsValid` abstracts `Offer.is_valid`. -/
structure Env where
  ledger : List CoinState
  ourCoinIds : List Nat
  wallets : Nat → Option WalletModel
  walletForAssetId : Nat → Option WalletModel
  walletForCoin : Nat → Option WalletModel
  mainWallet : WalletModel
  calcTxRecords : Offer → List TransactionRecordM
  assembleOffer : List (Option Nat × (Nat × Nat)) → List (Sum Nat Nat × List Coin) →
    List (Nat × Nat) → Offer
  aggregate : Offer → Offer → Offer
  offerIsValid : Offer → Bool

/-- The persisted state the excerpt mutates: the trade store, the transaction
store (`wsm.add_transaction`), the per-trade queued transactions
(`wsm.delete_trade_transactions` removes by trade id), and the pending
submissions (`wsm.add_pending_transaction`). -/
structure TMState where
  trades : List TradeRecord
  transactions : List TransactionRecordM
  pendingTradeTxs : List (Nat × TransactionRecordM)
  pendingTxs : List TransactionRecordM

/-- Node-side lookup of one coin state by coin id. -/
def ledgerLookup (ledger : List CoinState) (i : Nat) : Option CoinState :=
  ledger.find? (fun cs => cs.coin.name == i)

/-- `wallet_node.get_coin_state(ids, fork_height)`: the states of the
requested coins the node knows about, unknown ids omitted.  The fork height
only controls re-querying in the source and does not change the returned
view, so the model takes the current ledger view. -/
def getCoinState (ledger : List CoinState) (ids : List Nat) : List CoinState :=
  ids.filterMap (ledgerLookup ledger)

/-- The per-trade test of `get_trade_by_coin` (lines 114-117): the trade is
not cancelled and the coin is among its coins of interest. -/
def tradeOwnsCoin (coin : Coin) (t : TradeRecord) : Bool :=
  decide (t.status ≠ TradeStatus.cancelled) && decide (coin ∈ t.coinsOfInterest)

/-- `TradeManager.get_trade_by_coin`: first trade that is not cancelled and
whose coins of interest contain the coin. -/
def getTradeByCoin (trades : List TradeRecord) (coin : Coin) : Option TradeRecord :=
  trades.find? (tradeOwnsCoin coin)

/-- `TradeStore.set_status(trade_id, status, _, index)`: update the status (and
confirmation index) of the record with the given trade id. -/
def setStatus (trades : List TradeRecord) (id : Nat) (s : TradeStatus) (idx : Option Nat) :
    List TradeRecord :=
  trades.map (fun t =>
    if t.tradeId = id then { t with status := s, confirmedAtIndex := idx } else t)

/-- The non-ephemeral removals of an offer's bundle: removals whose parent coin
is not itself removed within the same bundle
(`check_offer_validity`, lines 439-443). -/
def nonEphemeralRemovals (offer : Offer) : List Coin :=
  let allRemovalNames := offer.bundleRemovals.map Coin.name
  offer.bundleRemovals.filter (fun c => !(allRemovalNames.contains c.parentCoinInfo))

/-- `TradeManager.check_offer_validity` (lines 438-447). -/
def checkOfferValidity (env : Env) (offer : Offer) : Bool :=
  let nonEphemeral := nonEphemeralRemovals offer
  let coinStates := getCoinState env.ledger (nonEphemeral.map Coin.name)
  coinStates.length == nonEphemeral.length && coinStates.all (fun cs => cs.spentHeight.isNone)

/-- The ids of this side's settlement-payment coins
(`coins_of_interest_farmed`, lines 136-146): offered coins of the trade's
offer whose root removal is one of our own primary coins. -/
def ourSettlementIds (env : Env) (offer : Offer) : List Nat :=
  let primaryCoinIds := offer.primaryCoins.map Coin.name
  let ourPrimaryCoins := primaryCoinIds.filter (fun i => env.ourCoinIds.contains i)
  let ourSettlementPayments :=
    offer.offeredCoins.filter (fun c => ourPrimaryCoins.contains ((offer.rootRemoval c).name))
  ourSettlementPayments.map Coin.name

/-- The height recorded by the success branch of `coins_of_interest_farmed`:
`coin_states[0].spent_height` (line 155), the spent height of the first coin
state returned for this side's settlement coins. -/
def farmHeight (env : Env) (offer : Offer) : Option Nat :=
  match getCoinState env.ledger (ourSettlementIds env offer) with
  | [] => none
  | s :: _ => s.spentHeight

/-- The transaction records the success branch persists (lines 157-162):
the offer's derived records, marked confirmed at the recorded height — but
only when the trade's prior status was `PENDING_ACCEPT`. -/
def farmAdded (env : Env) (trade : TradeRecord) : List TransactionRecordM :=
  if trade.status = TradeStatus.pendingAccept then
    (env.calcTxRecords trade.offer).map
      (fun tx => { tx with confirmedAtHeight := farmHeight env trade.offer, confirmed := true })
  else []

/-- `TradeManager.coins_of_interest_farmed` (lines 120-173).  The fork height
is threaded to the node query, whose model ignores it. -/
def coinsOfInterestFarmed (env : Env) (st : TMState) (cs : CoinState)
    (_forkHeight : Option Nat) : TMState :=
  match getTradeByCoin st.trades cs.coin with
  | none => st
  | some trade =>
    let ids := ourSettlementIds env trade.offer
    let coinStates := getCoinState env.ledger ids
    let coinStateNames := coinStates.map (fun s => s.coin.name)
    if ids.any (fun i => coinStateNames.contains i) then
      { st with
          trades := setStatus st.trades trade.tradeId TradeStatus.confirmed
            (farmHeight env trade.offer),
          transactions := st.transactions ++ farmAdded env trade }
    else
      let deleted := st.pendingTradeTxs.filter (fun p => !(p.1 == trade.tradeId))
      if trade.status = TradeStatus.pendingCancel then
        { st with
            trades := setStatus st.trades trade.tradeId TradeStatus.cancelled none,
            pendingTradeTxs := deleted }
      else if trade.status = TradeStatus.pendingConfirm then
        { st with
            trades := setStatus st.trades trade.tradeId TradeStatus.failed none,
            pendingTradeTxs := deleted }
      else
        { st with pendingTradeTxs := deleted }

/-- A key of the offer dictionary: `Sum.inl` a wallet id, `Sum.inr` an asset id
(the source's `Union[int, bytes32]`). -/
abbrev OfferKey := Sum Nat Nat

/-- The externally observable calls and persistence effects of the trade
manager, recorded as a trace. -/
inductive TMEvent where
  | getCoinsToOffer (key : OfferKey) (assetId : Option Nat) (amount : Nat) (feeArg : Nat)
  | createOfferTransactions (key : OfferKey) (feeArg : Nat)
  | saveTrade (tradeId : Nat)
  | addPendingTransaction (txName : Nat)
  | addTransaction (txName : Nat)
  deriving DecidableEq, Repr

/-- The mutable locals of `_create_offer_for_ids`'s first loop
(lines 330-333), plus the trace of external calls made so far. -/
structure BuildState where
  coinsToOffer : List (OfferKey × List Coin)
  requestedPayments : List (Option Nat × (Nat × Nat))
  feeLeft : Nat
  walletPayingFee : Option OfferKey
  driverDict : List (Nat × Nat)
  trace : List TMEvent

/-- Association-list update with dictionary semantics (Python `d[k] = v`). -/
def assocSet {α β : Type} [DecidableEq α] (l : List (α × β)) (k : α) (v : β) :
    List (α × β) :=
  if (l.find? (fun p => p.1 == k)).isSome
    then l.map (fun p => if p.1 = k then (k, v) else p)
    else l ++ [(k, v)]

/-- Resolving the wallet and asset id of a requested entry
(lines 336-354): returns (asset id, wallet if resolved, fresh puzzle hash). -/
def requestedResolve (env : Env) : OfferKey →
    Except String (Option Nat × Option WalletModel × Nat)
  | Sum.inl wid =>
    match env.wallets wid with
    | none => Except.error "KeyError: unknown wallet id"
    | some w =>
      if w.wtype = WalletType.standardWallet then
        Except.ok (none, some w, w.newPuzzleHash)
      else
        match w.assetId with
        | some a => Except.ok (some a, some w, w.newPuzzleHash)
        | none => Except.error "Cannot request assets from wallet id without more information"
  | Sum.inr aid =>
    Except.ok (some aid, env.walletForAssetId aid, env.mainWallet.newPuzzleHash)

/-- Resolving the wallet and asset id of an offered entry (lines 357-370). -/
def offeredResolve (env : Env) : OfferKey →
    Except String (Option Nat × Option WalletModel)
  | Sum.inl wid =>
    match env.wallets wid with
    | none => Except.error "KeyError: unknown wallet id"
    | some w =>
      if w.wtype = WalletType.standardWallet then
        Except.ok (none, some w)
      else
        match w.assetId with
        | some a => Except.ok (some a, some w)
        | none => Except.error "Cannot offer assets from wallet id without more information"
  | Sum.inr aid =>
    Except.ok (some aid, env.walletForAssetId aid)

/-- The driver-dict reconciliation at the end of each loop iteration
(lines 381-391). -/
def driverStep (dd : List (Nat × Nat)) : Option Nat → Option WalletModel →
    Except String (List (Nat × Nat))
  | some a, some w =>
    if w.hasGetPuzzleInfo then
      let pd := w.puzzleInfo a
      match (dd.find? (fun p => p.1 == a)) with
      | some existing =>
        if existing.2 ≠ pd then
          Except.error "driver_dict specified a driver, was expecting another"
        else Except.ok (assocSet dd a pd)
      | none => Except.ok (assocSet dd a pd)
    else Except.error "Wallet for asset id is not properly integrated with TradeManager"
  | _, _ => Except.ok dd

/-- One iteration of `_create_offer_for_ids`'s first loop (lines 334-391).
Returns `some msg` in the first component when the iteration raised; the
returned state carries the trace of external calls made before the raise
(the enclosing `try` turns the raise into a failure result). -/
def processEntry (env : Env) (s : BuildState) (key : OfferKey) (amount : Int) :
    Option String × BuildState :=
  if 0 < amount then
    match requestedResolve env key with
    | Except.error e => (some e, s)
    | Except.ok (assetId, wopt, ph) =>
      match driverStep s.driverDict assetId wopt with
      | Except.error e => (some e, s)
      | Except.ok dd =>
        (none, { s with
          requestedPayments := assocSet s.requestedPayments assetId (ph, amount.toNat),
          driverDict := dd })
  else
    match offeredResolve env key with
    | Except.error e => (some e, s)
    | Except.ok (assetId, wopt) =>
      if amount = 0 then
        (some "You cannot offer nor request 0 amount of something", s)
      else
        match wopt with
        | none => (some "Cannot offer coins from wallet", s)
        | some w =>
          if w.hasGetCoinsToOffer then
            let amt := amount.natAbs
            let coins := w.coinsToOffer assetId amt s.feeLeft
            let s1 := { s with
              coinsToOffer := s.coinsToOffer ++ [(key, coins)],
              feeLeft := 0,
              walletPayingFee := some key,
              trace := s.trace ++ [TMEvent.getCoinsToOffer key assetId amt s.feeLeft] }
            match driverStep s1.driverDict assetId (some w) with
            | Except.error e => (some e, s1)
            | Except.ok dd => (none, { s1 with driverDict := dd })
          else (some "Cannot offer coins from wallet", s)

/-- The first loop of `_create_offer_for_ids` over the offer dictionary's
entries in iteration order, stopping at the first raise. -/
def processEntries (env : Env) (s : BuildState) :
    List (OfferKey × Int) → Option String × BuildState
  | [] => (none, s)
  | (k, a) :: rest =>
    match processEntry env s k a with
    | (some e, s1) => (some e, s1)
    | (none, s1) => processEntries env s1 rest

/-- Wallet lookup in the second loop of `_create_offer_for_ids`
(lines 401-404); a missing wallet raises when its method is called. -/
def lookupWalletForKey (env : Env) : OfferKey → Option WalletModel
  | Sum.inl wid => env.wallets wid
  | Sum.inr aid => env.walletForAssetId aid

/-- The second loop of `_create_offer_for_ids` (lines 400-415): one
`create_offer_transactions` call per offered asset, in accumulation order,
with the fee attached iff the key equals `wallet_paying_fee`. -/
def secondLoop (env : Env) (fee : Nat) (paying : Option OfferKey) :
    List (OfferKey × List Coin) → Option String × List TMEvent
  | [] => (none, [])
  | (k, _) :: rest =>
    match lookupWalletForKey env k with
    | none => (some "AttributeError: no wallet for offered id", [])
    | some w =>
      if w.hasCreateOfferTransactions then
        let thisFee := if some k = paying then fee else 0
        match secondLoop env fee paying rest with
        | (res, evs) => (res, TMEvent.createOfferTransactions k thisFee :: evs)
      else (some "AttributeError: wallet has no create_offer_transactions", [])

/-- The initial locals of `_create_offer_for_ids` (lines 330-332). -/
def initBuildState (driverDict0 : List (Nat × Nat)) (fee : Nat) : BuildState :=
  { coinsToOffer := [], requestedPayments := [], feeLeft := fee,
    walletPayingFee := none, driverDict := driverDict0, trace := [] }

/-- `TradeManager._create_offer_for_ids` (lines 318-425): the whole body runs
inside a catch-all `try`, so a raise becomes a `(False, None, error)` result,
here an `Except.error`.  Returns the assembled offer (or the error) together
with the trace of external calls made. -/
def createOfferInner (env : Env) (entries : List (OfferKey × Int))
    (dd0 : List (Nat × Nat)) (fee : Nat) : Except String Offer × List TMEvent :=
  match processEntries env (initBuildState dd0 fee) entries with
  | (some e, s) => (Except.error e, s.trace)
  | (none, s) =>
    match secondLoop env fee s.walletPayingFee s.coinsToOffer with
    | (some e, evs) => (Except.error e, s.trace ++ evs)
    | (none, evs) =>
      (Except.ok (env.assembleOffer s.requestedPayments s.coinsToOffer s.driverDict),
       s.trace ++ evs)

/-- `TradeManager.create_offer_for_ids` (lines 285-316).  An `Except.error`
result models an exception escaping to the caller: the source re-raises on
construction failure (line 296). -/
def createOfferForIds (env : Env) (st : TMState) (entries : List (OfferKey × Int))
    (dd0 : List (Nat × Nat)) (fee : Nat) (validateOnly : Bool) :
    Except String (Bool × TradeRecord × Option String) × TMState × List TMEvent :=
  match createOfferInner env entries dd0 fee with
  | (Except.error e, tr) => (Except.error ("Error creating offer: " ++ e), st, tr)
  | (Except.ok offer, tr) =>
    let tradeOffer : TradeRecord :=
      { tradeId := offer.offerName, status := TradeStatus.pendingAccept,
        offer := offer, coinsOfInterest := offer.involvedCoins,
        confirmedAtIndex := none, isMyOffer := true }
    if validateOnly then
      (Except.ok (true, tradeOffer, none), st, tr)
    else
      (Except.ok (true, tradeOffer, none),
       { st with trades := st.trades ++ [tradeOffer] },
       tr ++ [TMEvent.saveTrade tradeOffer.tradeId])

/-- The `(success, trade, error)` triple the trade manager returns. -/
structure TMResult where
  success : Bool
  trade : Option TradeRecord
  error : Option String

/-- The first loop of `respond_to_offer` (lines 537-550): build the take-offer
dictionary from the arbitrage map, failing on an asset this side must supply
but has no wallet for. -/
def buildTakeOfferDict (env : Env) :
    List (Option Nat × Int) → Except String (List (OfferKey × Int))
  | [] => Except.ok []
  | (assetId, amount) :: rest =>
    match assetId with
    | none =>
      (buildTakeOfferDict env rest).map
        (fun r => (Sum.inl env.mainWallet.wid, amount) :: r)
    | some a =>
      match env.walletForAssetId a with
      | none =>
        if amount < 0 then
          Except.error "Do not have a wallet for asset ID to fulfill offer"
        else (buildTakeOfferDict env rest).map (fun r => (Sum.inr a, amount) :: r)
      | some _ => (buildTakeOfferDict env rest).map (fun r => (Sum.inr a, amount) :: r)

/-- The accept path of `respond_to_offer` after the validity check
(lines 557-608): build the complementary offer, aggregate, assert validity
(an `Except.error` models the uncaught `AssertionError`), persist the
`PENDING_CONFIRM` trade record, submit the push transaction, record the
per-wallet transaction records. -/
def respondRest (env : Env) (st : TMState) (offer : Offer)
    (takeDict : List (OfferKey × Int)) (fee : Nat) :
    Except String TMResult × TMState × List TMEvent :=
  match createOfferInner env takeDict offer.driverDict fee with
  | (Except.error e, tr) =>
    (Except.ok { success := false, trade := none, error := some e }, st, tr)
  | (Except.ok takeOffer, tr) =>
    let complete := env.aggregate offer takeOffer
    if env.offerIsValid complete = false then
      (Except.error "AssertionError: complete offer is not valid", st, tr)
    else
      let txRecords := env.calcTxRecords complete
      let tradeRecord : TradeRecord :=
        { tradeId := complete.offerName, status := TradeStatus.pendingConfirm,
          offer := complete, coinsOfInterest := complete.involvedCoins,
          confirmedAtIndex := none, isMyOffer := false }
      let pushTx : TransactionRecordM :=
        { confirmedAtHeight := some 0, toPuzzleHash := 0, amount := 0, feeAmount := 0,
          confirmed := false, additions := [], removals := [], txName := 0 }
      (Except.ok { success := true, trade := some tradeRecord, error := none },
       { st with
          trades := st.trades ++ [tradeRecord],
          pendingTxs := st.pendingTxs ++ [pushTx],
          transactions := st.transactions ++ txRecords },
       tr ++ [TMEvent.saveTrade tradeRecord.tradeId, TMEvent.addPendingTransaction 0] ++
         txRecords.map (fun t => TMEvent.addTransaction t.txName))

/-- `TradeManager.respond_to_offer` (lines 536-608). -/
def respondToOffer (env : Env) (st : TMState) (offer : Offer) (fee : Nat) :
    Except String TMResult × TMState × List TMEvent :=
  match buildTakeOfferDict env offer.arbitrage with
  | Except.error msg =>
    (Except.ok { success := false, trade := none, error := some msg }, st, [])
  | Except.ok takeDict =>
    if checkOfferValidity env offer = false then
      (Except.ok { success := false, trade := none,
                   error := some "This offer is no longer valid" }, st, [])
    else respondRest env st offer takeDict fee

/-- The coin set the standard-wallet branch of the cancel loop spends
(lines 229-236): just the offered coin when the remaining fee fits into it,
otherwise the coin plus wallet-selected coins covering the shortfall. -/
def cancelSelected (w : WalletModel) (coin : Coin) (feeToPay : Nat) : List Coin :=
  if coin.amount < feeToPay then
    coin :: w.selectCoins (feeToPay - coin.amount) [coin]
  else [coin]

/-- The per-coin loop of `cancel_pending_offer_safely` (lines 220-272),
threading `fee_to_pay` (set to the full fee before the first processed coin,
zero afterwards).  A wallet-generated transaction is modelled by a record
capturing the call's arguments (amount, target hash, fee, coins); the
manager's own cancellation record follows it, exactly as appended to
`all_txs` in the source. -/
def cancelLoop (env : Env) (fee : Nat) : List Coin → Nat → List TransactionRecordM
  | [], _ => []
  | coin :: rest, feeToPay =>
    match env.walletForCoin coin.name with
    | none => cancelLoop env fee rest feeToPay
    | some w =>
      let newPh := w.newPuzzleHash
      let txs :=
        if w.wtype = WalletType.standardWallet then
          let selected := cancelSelected w coin feeToPay
          [{ confirmedAtHeight := some 0, toPuzzleHash := newPh,
             amount := (selected.map Coin.amount).sum - feeToPay,
             feeAmount := feeToPay, confirmed := false, additions := [],
             removals := selected, txName := 0 }]
        else
          [{ confirmedAtHeight := some 0, toPuzzleHash := newPh, amount := coin.amount,
             feeAmount := feeToPay, confirmed := false, additions := [],
             removals := [coin], txName := 0 }]
      let cancellationAddition : Coin := ⟨coin.name, newPh, coin.amount⟩
      let record : TransactionRecordM :=
        { confirmedAtHeight := some 0, toPuzzleHash := newPh, amount := coin.amount,
          feeAmount := fee, confirmed := false, additions := [cancellationAddition],
          removals := [coin], txName := cancellationAddition.name }
      txs ++ [record] ++ cancelLoop env fee rest 0

/-- `TradeManager.cancel_pending_offer_safely` (lines 209-279): build the
re-spend transactions, queue them all for submission (with the full fee
recorded on each), and persist `PENDING_CANCEL`. -/
def cancelPendingOfferSafely (env : Env) (st : TMState) (tradeId : Nat) (fee : Nat) :
    Option (List TransactionRecordM) × TMState :=
  match st.trades.find? (fun t => t.tradeId == tradeId) with
  | none => (none, st)
  | some trade =>
    let allTxs := cancelLoop env fee trade.offer.primaryCoins fee
    (some allTxs,
     { st with
        pendingTxs := st.pendingTxs ++ allTxs.map (fun t => { t with feeAmount := fee }),
        trades := setStatus st.trades tradeId TradeStatus.pendingCancel none })

/-! ### Lemmas about the node view and trade lookup -/

theorem ledgerLookup_name {ledger : List CoinState} {i : Nat} {s : CoinState}
    (h : ledgerLookup ledger i = some s) : s.coin.name = i := by
  have hp := List.find?_some h
  simpa using hp

theorem mem_getCoinState {ledger : List CoinState} {ids : List Nat} {i : Nat}
    {s : CoinState} (hi : i ∈ ids) (h : ledgerLookup ledger i = some s) :
    s ∈ getCoinState ledger ids :=
  List.mem_filterMap.2 ⟨i, hi, h⟩

theorem getCoinState_eq_nil {ledger : List CoinState} {ids : List Nat}
    (h : ∀ i ∈ ids, ledgerLookup ledger i = none) : getCoinState ledger ids = [] :=
  List.filterMap_eq_nil_iff.2 h

/-- The success condition of `coins_of_interest_farmed` (line 154) holds as
soon as the node knows a state for one of this side's settlement coins. -/
theorem farmedCond_true {env : Env} {offer : Offer}
    (h : ∃ i ∈ ourSettlementIds env offer, (ledgerLookup env.ledger i).isSome) :
    ((ourSettlementIds env offer).any (fun i =>
      (((getCoinState env.ledger (ourSettlementIds env offer)).map
        (fun s => s.coin.name)).contains i))) = true := by
  obtain ⟨i, hi, hsome⟩ := h
  obtain ⟨s, hs⟩ := Option.isSome_iff_exists.1 hsome
  refine List.any_eq_true.2 ⟨i, hi, ?_⟩
  have hmem : i ∈ (getCoinState env.ledger (ourSettlementIds env offer)).map
      (fun s => s.coin.name) :=
    List.mem_map.2 ⟨s, mem_getCoinState hi hs, ledgerLookup_name hs⟩
  simpa using hmem

/-- On the success condition, `coins_of_interest_farmed` performs exactly the
confirmation update of lines 154-164. -/
theorem coinsOfInterestFarmed_success (env : Env) (st : TMState) (cs : CoinState)
    (fh : Option Nat) (trade : TradeRecord)
    (ht : getTradeByCoin st.trades cs.coin = some trade)
    (hknown : ∃ i ∈ ourSettlementIds env trade.offer, (ledgerLookup env.ledger i).isSome) :
    coinsOfInterestFarmed env st cs fh =
      { st with
          trades := setStatus st.trades trade.tradeId TradeStatus.confirmed
            (farmHeight env trade.offer),
          transactions := st.transactions ++ farmAdded env trade } := by
  unfold coinsOfInterestFarmed
  rw [ht]
  simp only [farmedCond_true hknown, if_true]

/-- When the node knows no state for any of this side's settlement coins,
`coins_of_interest_farmed` performs exactly the failure update of
lines 165-173. -/
theorem coinsOfInterestFarmed_else (env : Env) (st : TMState) (cs : CoinState)
    (fh : Option Nat) (trade : TradeRecord)
    (ht : getTradeByCoin st.trades cs.coin = some trade)
    (hnone : ∀ i ∈ ourSettlementIds env trade.offer, ledgerLookup env.ledger i = none) :
    coinsOfInterestFarmed env st cs fh =
      (let deleted := st.pendingTradeTxs.filter (fun p => !(p.1 == trade.tradeId))
       if trade.status = TradeStatus.pendingCancel then
        { st with
            trades := setStatus st.trades trade.tradeId TradeStatus.cancelled none,
            pendingTradeTxs := deleted }
       else if trade.status = TradeStatus.pendingConfirm then
        { st with
            trades := setStatus st.trades trade.tradeId TradeStatus.failed none,
            pendingTradeTxs := deleted }
       else
        { st with pendingTradeTxs := deleted }) := by
  simp only [coinsOfInterestFarmed, ht, getCoinState_eq_nil hnone, List.map_nil,
    List.contains_nil, List.any_eq_false]
  simp

/-! ### Lemmas about `setStatus` and re-lookup after an update -/

theorem setStatus_mem_status {l : List TradeRecord} {id : Nat} {s : TradeStatus}
    {idx : Option Nat} {t : TradeRecord} (hmem : t ∈ setStatus l id s idx)
    (hid : t.tradeId = id) : t.status = s := by
  obtain ⟨t0, _, heq⟩ := List.mem_map.1 hmem
  by_cases h0 : t0.tradeId = id
  · rw [if_pos h0] at heq
    rw [← heq]
  · rw [if_neg h0] at heq
    rw [← heq] at hid
    exact absurd hid h0

theorem setStatus_offer_preserved {l : List TradeRecord} {id : Nat} {s : TradeStatus}
    {idx : Option Nat} {t : TradeRecord} (hmem : t ∈ setStatus l id s idx) :
    ∃ t0 ∈ l, t.offer = t0.offer ∧ t.coinsOfInterest = t0.coinsOfInterest := by
  obtain ⟨t0, h0, heq⟩ := List.mem_map.1 hmem
  by_cases hc : t0.tradeId = id
  · rw [if_pos hc] at heq
    exact ⟨t0, h0, by rw [← heq], by rw [← heq]⟩
  · rw [if_neg hc] at heq
    exact ⟨t0, h0, by rw [← heq], by rw [← heq]⟩

/-- After `set_status` on the trade that `get_trade_by_coin` found, a second
lookup for the same coin finds the updated record (trade ids being unique in
the store, and the new status not being `CANCELLED`). -/
theorem getTradeByCoin_setStatus (trades : List TradeRecord) (coin : Coin)
    (trade : TradeRecord) (s : TradeStatus) (idx : Option Nat)
    (hnd : (trades.map (fun t => t.tradeId)).Nodup)
    (ht : getTradeByCoin trades coin = some trade)
    (hs : s ≠ TradeStatus.cancelled) :
    getTradeByCoin (setStatus trades trade.tradeId s idx) coin =
      some { trade with status := s, confirmedAtIndex := idx } := by
  induction trades with
  | nil => simp [getTradeByCoin] at ht
  | cons hd rest ih =>
    rw [List.map_cons] at hnd
    have hnd' : (rest.map (fun t => t.tradeId)).Nodup := (List.nodup_cons.1 hnd).2
    by_cases hp : tradeOwnsCoin coin hd = true
    · have hhd : trade = hd := by
        rw [getTradeByCoin, List.find?_cons_of_pos _ hp] at ht
        exact (Option.some_inj.1 ht).symm
      subst hhd
      have hcoin : coin ∈ trade.coinsOfInterest := by
        have h2 := hp
        rw [tradeOwnsCoin, Bool.and_eq_true] at h2
        exact of_decide_eq_true h2.2
      rw [setStatus, List.map_cons, if_pos rfl, getTradeByCoin]
      rw [List.find?_cons_of_pos]
      rw [tradeOwnsCoin]
      simp [hs, hcoin]
    · have ht' : getTradeByCoin rest coin = some trade := by
        rw [getTradeByCoin, List.find?_cons_of_neg _ hp] at ht
        exact ht
      have htmem : trade ∈ rest := List.mem_of_find?_eq_some ht'
      have hne : hd.tradeId ≠ trade.tradeId := by
        intro hcontra
        have hmm : trade.tradeId ∈ rest.map (fun t => t.tradeId) :=
          List.mem_map.2 ⟨trade, htmem, rfl⟩
        rw [← hcontra] at hmm
        exact (List.nodup_cons.1 hnd).1 hmm
      rw [setStatus, List.map_cons, if_neg hne, getTradeByCoin,
        List.find?_cons_of_neg _ hp]
      exact ih hnd' ht'

/-! ### Validity check: supporting lemmas -/

theorem getCoinState_length_iff {ledger : List CoinState} {ids : List Nat} :
    (getCoinState ledger ids).length = ids.length ↔
      ∀ i ∈ ids, (ledgerLookup ledger i).isSome := by
  induction ids with
  | nil => simp [getCoinState]
  | cons i rest ih =>
    cases h : ledgerLookup ledger i with
    | none =>
      simp only [getCoinState, List.filterMap_cons, h, List.length_cons]
      constructor
      · intro hlen
        exfalso
        have hle := List.length_filterMap_le (ledgerLookup ledger) rest
        omega
      · intro hall
        exfalso
        have hi := hall i (List.mem_cons_self i rest)
        rw [h] at hi
        simp at hi
    | some s =>
      simp only [getCoinState, List.filterMap_cons, h, List.length_cons]
      unfold getCoinState at ih
      constructor
      · intro hlen i' hi'
        rcases List.mem_cons.1 hi' with hEq | hMem
        · rw [hEq, h]; rfl
        · exact (ih.1 (by omega)) i' hMem
      · intro hall
        have : (rest.filterMap (ledgerLookup ledger)).length = rest.length :=
          ih.2 (fun i' hi' => hall i' (List.mem_cons_of_mem _ hi'))
        omega

theorem mem_getCoinState_iff {ledger : List CoinState} {ids : List Nat} {s : CoinState} :
    s ∈ getCoinState ledger ids ↔ ∃ i ∈ ids, ledgerLookup ledger i = some s := by
  simp [getCoinState, List.mem_filterMap]

/-- C4: `check_offer_validity(offer)` returns true iff every non-ephemeral coin
removed by the offer's bundle (a removal whose parent is not itself removed in
the same bundle) has a known coin state on the ledger and is unspent; it is
false as soon as any such coin is spent or unknown. -/
theorem check_offer_validity_iff (env : Env) (offer : Offer) :
    checkOfferValidity env offer = true ↔
      ∀ c ∈ nonEphemeralRemovals offer,
        ∃ s, ledgerLookup env.ledger c.name = some s ∧ s.spentHeight = none := by
  unfold checkOfferValidity
  rw [Bool.and_eq_true]
  constructor
  · rintro ⟨hlen, hall⟩ c hc
    have hlen' : ∀ i ∈ (nonEphemeralRemovals offer).map Coin.name,
        (ledgerLookup env.ledger i).isSome := by
      apply getCoinState_length_iff.1
      have := of_decide_eq_true (by simpa using hlen)
      simpa [List.length_map] using this
    have hname : c.name ∈ (nonEphemeralRemovals offer).map Coin.name :=
      List.mem_map.2 ⟨c, hc, rfl⟩
    obtain ⟨s, hs⟩ := Option.isSome_iff_exists.1 (hlen' c.name hname)
    refine ⟨s, hs, ?_⟩
    have hmem : s ∈ getCoinState env.ledger ((nonEphemeralRemovals offer).map Coin.name) :=
      mem_getCoinState_iff.2 ⟨c.name, hname, hs⟩
    have := List.all_eq_true.1 hall s hmem
    simpa [Option.isNone_iff_eq_none] using this
  · intro h
    constructor
    · have : (getCoinState env.ledger ((nonEphemeralRemovals offer).map Coin.name)).length =
          ((nonEphemeralRemovals offer).map Coin.name).length := by
        apply getCoinState_length_iff.2
        intro i hi
        obtain ⟨c, hc, rfl⟩ := List.mem_map.1 hi
        obtain ⟨s, hs, _⟩ := h c hc
        rw [hs]; rfl
      simp [this, List.length_map]
    · refine List.all_eq_true.2 ?_
      intro s hmem
      obtain ⟨i, hi, hlook⟩ := mem_getCoinState_iff.1 hmem
      obtain ⟨c, hc, rfl⟩ := List.mem_map.1 hi
      obtain ⟨s', hs', hnone⟩ := h c hc
      rw [hlook] at hs'
      rw [← Option.some_inj.1 hs'] at hnone
      simp [Option.isNone_iff_eq_none, hnone]

/-! ### Concrete fixtures used by witnesses and counterexamples -/

/-- An empty offer value, the base of the concrete fixtures. -/
def emptyOffer : Offer :=
  { primaryCoins := [], offeredCoins := [], rootRemoval := fun c => c,
    bundleRemovals := [], involvedCoins := [], arbitrage := [], driverDict := [],
    offerName := 0 }

/-- A standard wallet with trivial capabilities, the base of the fixtures. -/
def exWallet : WalletModel :=
  { wid := 0, wtype := WalletType.standardWallet, assetId := none,
    hasGetCoinsToOffer := true, coinsToOffer := fun _ _ _ => [],
    hasCreateOfferTransactions := true, hasGetPuzzleInfo := true,
    puzzleInfo := fun _ => 0, newPuzzleHash := 99, selectCoins := fun _ _ => [] }

/-- An environment with empty collaborators, the base of the fixtures. -/
def baseEnv : Env :=
  { ledger := [], ourCoinIds := [], wallets := fun _ => none,
    walletForAssetId := fun _ => none, walletForCoin := fun _ => none,
    mainWallet := exWallet, calcTxRecords := fun _ => [],
    assembleOffer := fun _ _ _ => emptyOffer, aggregate := fun a _ => a,
    offerIsValid := fun _ => true }

/-- Our primary (root) coin in the reconciliation fixtures. -/
def exPrimary : Coin := ⟨0, 0, 100⟩

/-- A settlement-payment coin that exists on chain but is unspent. -/
def exSettlementA : Coin := ⟨1, 1, 10⟩

/-- A settlement-payment coin spent at height 5. -/
def exSettlementB : Coin := ⟨1, 2, 20⟩

/-- The counterpart's coin whose spend triggers the reconciliation event. -/
def exOther : Coin := ⟨2, 3, 30⟩

/-- The triggering coin-state event: the counterpart's coin, spent at height 4. -/
def cexEvent1 : CoinState := ⟨exOther, some 4, some 4⟩

/-- A sample derived transaction record (as produced by
`calculate_tx_records_for_offer`). -/
def exTxRecord : TransactionRecordM :=
  { confirmedAtHeight := none, toPuzzleHash := 0, amount := 1, feeAmount := 0,
    confirmed := false, additions := [], removals := [], txName := 42 }

/-- C1-counterexample offer: both settlement coins descend from our primary. -/
def cexOffer1 : Offer :=
  { emptyOffer with
    primaryCoins := [exPrimary],
    offeredCoins := [exSettlementA, exSettlementB],
    rootRemoval := fun _ => exPrimary, involvedCoins := [exPrimary, exOther],
    offerName := 7 }

/-- C1-counterexample trade, in `PENDING_CONFIRM`. -/
def cexTrade1 : TradeRecord :=
  { tradeId := 7, status := TradeStatus.pendingConfirm, offer := cexOffer1,
    coinsOfInterest := [exPrimary, exOther], confirmedAtIndex := none,
    isMyOffer := true }

/-- C1-counterexample environment: settlement coin A known unspent, settlement
coin B spent at height 5; one derivable transaction record. -/
def cexEnv1 : Env :=
  { baseEnv with
    ledger := [⟨exSettlementA, some 5, none⟩, ⟨exSettlementB, some 5, some 5⟩],
    ourCoinIds := [exPrimary.name], calcTxRecords := fun _ => [exTxRecord] }

/-- C1-counterexample store state: the single pending trade. -/
def cexState1 : TMState :=
  { trades := [cexTrade1], transactions := [], pendingTradeTxs := [], pendingTxs := [] }

/-! ### C1: the success transition of the reconciliation state machine -/

/-- C1 (amended): when `coins_of_interest_farmed` finds the trade of the
notified coin and one of this side's settlement-payment coins has been spent,
the trade's status is persisted as `CONFIRMED` with `confirmed_at_index` equal
to the spent height of the *first coin state returned* for this side's
settlement coins (`coin_states[0].spent_height`, which is not necessarily the
height at which the spent coin was spent), and the offer's transaction records
are persisted as confirmed only when the trade's prior status was
`PENDING_ACCEPT`. -/
theorem coins_farmed_confirm_amended (env : Env) (st : TMState) (cs : CoinState)
    (fh : Option Nat) (trade : TradeRecord)
    (ht : getTradeByCoin st.trades cs.coin = some trade)
    (hspent : ∃ i ∈ ourSettlementIds env trade.offer,
      ∃ s, ledgerLookup env.ledger i = some s ∧ s.spentHeight ≠ none) :
    (coinsOfInterestFarmed env st cs fh).trades =
      setStatus st.trades trade.tradeId TradeStatus.confirmed
        (farmHeight env trade.offer) ∧
    (∀ t ∈ (coinsOfInterestFarmed env st cs fh).trades,
        t.tradeId = trade.tradeId → t.status = TradeStatus.confirmed) ∧
    (coinsOfInterestFarmed env st cs fh).transactions =
      st.transactions ++ farmAdded env trade := by
  have hknown : ∃ i ∈ ourSettlementIds env trade.offer,
      (ledgerLookup env.ledger i).isSome := by
    obtain ⟨i, hi, s, hs, _⟩ := hspent
    exact ⟨i, hi, by rw [hs]; rfl⟩
  have hrun := coinsOfInterestFarmed_success env st cs fh trade ht hknown
  rw [hrun]
  exact ⟨rfl, fun t hmem hid => setStatus_mem_status hmem hid, rfl⟩

/-- C1-witness offer/trade: a `PENDING_ACCEPT` trade with a single spent
settlement coin. -/
def witOffer1 : Offer :=
  { emptyOffer with
    primaryCoins := [exPrimary], offeredCoins := [exSettlementB],
    rootRemoval := fun _ => exPrimary, involvedCoins := [exPrimary, exOther],
    offerName := 8 }

/-- C1-witness trade record. -/
def witTrade1 : TradeRecord :=
  { tradeId := 8, status := TradeStatus.pendingAccept, offer := witOffer1,
    coinsOfInterest := [exPrimary, exOther], confirmedAtIndex := none,
    isMyOffer := true }

/-- C1-witness environment. -/
def witEnv1 : Env :=
  { baseEnv with
    ledger := [⟨exSettlementB, some 5, some 5⟩],
    ourCoinIds := [exPrimary.name], calcTxRecords := fun _ => [exTxRecord] }

/-- C1-witness store state. -/
def witState1 : TMState :=
  { trades := [witTrade1], transactions := [], pendingTradeTxs := [], pendingTxs := [] }

/-- C1 witness: the amended theorem applied at the concrete fixture. -/
theorem coins_farmed_confirm_amended_witness :
    (coinsOfInterestFarmed witEnv1 witState1 cexEvent1 none).trades =
      setStatus witState1.trades witTrade1.tradeId TradeStatus.confirmed
        (farmHeight witEnv1 witTrade1.offer) ∧
    (∀ t ∈ (coinsOfInterestFarmed witEnv1 witState1 cexEvent1 none).trades,
        t.tradeId = witTrade1.tradeId → t.status = TradeStatus.confirmed) ∧
    (coinsOfInterestFarmed witEnv1 witState1 cexEvent1 none).transactions =
      witState1.transactions ++ farmAdded witEnv1 witTrade1 :=
  coins_farmed_confirm_amended witEnv1 witState1 cexEvent1 none witTrade1 rfl
    ⟨exSettlementB.name, by decide, ⟨exSettlementB, some 5, some 5⟩, rfl, by decide⟩

/-- C1 counterexample: in `cexState1` the trade is `PENDING_CONFIRM` and its
settlement coin B has been spent at height 5, yet the claim's conclusion
fails: the code records `coin_states[0].spent_height = None` (coin A's state
comes first and is unspent) instead of the spend height 5, and it persists no
transaction record because materialization only happens from
`PENDING_ACCEPT`. -/
theorem coins_farmed_confirm_claim_cex :
    ¬ ((∀ t ∈ (coinsOfInterestFarmed cexEnv1 cexState1 cexEvent1 none).trades,
          t.tradeId = 7 → t.status = TradeStatus.confirmed) ∧
       (∀ t ∈ (coinsOfInterestFarmed cexEnv1 cexState1 cexEvent1 none).trades,
          t.tradeId = 7 → t.confirmedAtIndex = some 5) ∧
       (∃ tx ∈ (coinsOfInterestFarmed cexEnv1 cexState1 cexEvent1 none).transactions,
          tx.confirmed = true)) := by
  intro h
  obtain ⟨tx, htx, _⟩ := h.2.2
  have hempty : (coinsOfInterestFarmed cexEnv1 cexState1 cexEvent1 none).transactions = [] := by
    rfl
  rw [hempty] at htx
  exact (List.not_mem_nil tx) htx

/-! ### C2: the failure transition of the reconciliation state machine -/

/-- C2 (amended): when `coins_of_interest_farmed` finds the trade of the
notified coin and the node knows *no coin state* for any of this side's
settlement-payment coins (on chain a settlement coin's state appears exactly
when the trade executes, so this is the code's reading of "none spent"), the
trade's queued pending transactions are deleted and the status transitions
exactly as: `PENDING_CANCEL` becomes `CANCELLED`, `PENDING_CONFIRM` becomes
`FAILED`, and any other status is left unchanged. -/
theorem coins_farmed_failure_amended (env : Env) (st : TMState) (cs : CoinState)
    (fh : Option Nat) (trade : TradeRecord)
    (ht : getTradeByCoin st.trades cs.coin = some trade)
    (hnone : ∀ i ∈ ourSettlementIds env trade.offer, ledgerLookup env.ledger i = none) :
    (coinsOfInterestFarmed env st cs fh).pendingTradeTxs =
      st.pendingTradeTxs.filter (fun p => !(p.1 == trade.tradeId)) ∧
    (coinsOfInterestFarmed env st cs fh).transactions = st.transactions ∧
    (trade.status = TradeStatus.pendingCancel →
      (coinsOfInterestFarmed env st cs fh).trades =
        setStatus st.trades trade.tradeId TradeStatus.cancelled none) ∧
    (trade.status = TradeStatus.pendingConfirm →
      (coinsOfInterestFarmed env st cs fh).trades =
        setStatus st.trades trade.tradeId TradeStatus.failed none) ∧
    (trade.status ≠ TradeStatus.pendingCancel →
      trade.status ≠ TradeStatus.pendingConfirm →
      (coinsOfInterestFarmed env st cs fh).trades = st.trades) := by
  have hrun := coinsOfInterestFarmed_else env st cs fh trade ht hnone
  rw [hrun]
  by_cases h1 : trade.status = TradeStatus.pendingCancel
  · simp [h1]
  · by_cases h2 : trade.status = TradeStatus.pendingConfirm
    · simp [h1, h2]
    · simp [h1, h2]

/-- C2-witness trade: `PENDING_CONFIRM`, settlement coin unknown to the node. -/
def witTrade2 : TradeRecord :=
  { tradeId := 12, status := TradeStatus.pendingConfirm, offer := witOffer1,
    coinsOfInterest := [exPrimary, exOther], confirmedAtIndex := none,
    isMyOffer := false }

/-- C2-witness environment: empty node view. -/
def witEnv2 : Env :=
  { baseEnv with ourCoinIds := [exPrimary.name] }

/-- C2-witness store state, with one queued transaction for the trade. -/
def witState2 : TMState :=
  { trades := [witTrade2], transactions := [],
    pendingTradeTxs := [(12, exTxRecord)], pendingTxs := [] }

/-- C2 witness: the amended theorem applied at the concrete fixture. -/
theorem coins_farmed_failure_amended_witness :
    (coinsOfInterestFarmed witEnv2 witState2 cexEvent1 none).pendingTradeTxs =
      witState2.pendingTradeTxs.filter (fun p => !(p.1 == witTrade2.tradeId)) ∧
    (coinsOfInterestFarmed witEnv2 witState2 cexEvent1 none).transactions =
      witState2.transactions ∧
    (witTrade2.status = TradeStatus.pendingCancel →
      (coinsOfInterestFarmed witEnv2 witState2 cexEvent1 none).trades =
        setStatus witState2.trades witTrade2.tradeId TradeStatus.cancelled none) ∧
    (witTrade2.status = TradeStatus.pendingConfirm →
      (coinsOfInterestFarmed witEnv2 witState2 cexEvent1 none).trades =
        setStatus witState2.trades witTrade2.tradeId TradeStatus.failed none) ∧
    (witTrade2.status ≠ TradeStatus.pendingCancel →
      witTrade2.status ≠ TradeStatus.pendingConfirm →
      (coinsOfInterestFarmed witEnv2 witState2 cexEvent1 none).trades =
        witState2.trades) :=
  coins_farmed_failure_amended witEnv2 witState2 cexEvent1 none witTrade2 rfl
    (by decide)

/-- C2-counterexample offer: one settlement coin, known to the node but
unspent. -/
def cexOffer2 : Offer :=
  { emptyOffer with
    primaryCoins := [exPrimary], offeredCoins := [exSettlementA],
    rootRemoval := fun _ => exPrimary, involvedCoins := [exPrimary, exOther],
    offerName := 9 }

/-- C2-counterexample trade, in `PENDING_CONFIRM`. -/
def cexTrade2 : TradeRecord :=
  { tradeId := 9, status := TradeStatus.pendingConfirm, offer := cexOffer2,
    coinsOfInterest := [exPrimary, exOther], confirmedAtIndex := none,
    isMyOffer := false }

/-- C2-counterexample environment: the settlement coin's state is known
(created at height 5) but its spent height is `None`. -/
def cexEnv2 : Env :=
  { baseEnv with
    ledger := [⟨exSettlementA, some 5, none⟩],
    ourCoinIds := [exPrimary.name] }

/-- C2-counterexample store state. -/
def cexState2 : TMState :=
  { trades := [cexTrade2], transactions := [], pendingTradeTxs := [], pendingTxs := [] }

/-- C2 counterexample: the counterpart's coin was spent (the triggering event)
and *none* of this side's settlement coins has been spent (coin A's state is
known but unspent), yet the `PENDING_CONFIRM` trade ends `CONFIRMED`, not
`FAILED` — the code's branch tests state *existence*
(`set(our_settlement_ids) & set(coin_state_names)`), not spent-ness, so the
claim's transition table is false at this input. -/
theorem coins_farmed_failure_claim_cex :
    cexEvent1.spentHeight ≠ none ∧
    (∀ i ∈ ourSettlementIds cexEnv2 cexTrade2.offer, ∀ s,
        ledgerLookup cexEnv2.ledger i = some s → s.spentHeight = none) ∧
    (∀ t ∈ (coinsOfInterestFarmed cexEnv2 cexState2 cexEvent1 none).trades,
        t.status = TradeStatus.confirmed) ∧
    TradeStatus.confirmed ≠ TradeStatus.failed := by
  refine ⟨by decide, by decide, ?_, by decide⟩
  decide

/-! ### C9: idempotency of re-delivering a confirming event -/

/-- C9: delivering the same confirming coin-state event twice is idempotent:
after the second delivery the trade's status is still `CONFIRMED` and the
transaction store is unchanged from the first delivery (no duplicate records
are persisted, because materialization is guarded by the prior status being
`PENDING_ACCEPT`, which no longer holds). -/
theorem confirm_event_idempotent (env : Env) (st : TMState) (cs : CoinState)
    (fh fh2 : Option Nat) (trade : TradeRecord)
    (hnd : (st.trades.map (fun t => t.tradeId)).Nodup)
    (ht : getTradeByCoin st.trades cs.coin = some trade)
    (hknown : ∃ i ∈ ourSettlementIds env trade.offer, (ledgerLookup env.ledger i).isSome) :
    (∀ t ∈ (coinsOfInterestFarmed env (coinsOfInterestFarmed env st cs fh) cs fh2).trades,
        t.tradeId = trade.tradeId → t.status = TradeStatus.confirmed) ∧
    (coinsOfInterestFarmed env (coinsOfInterestFarmed env st cs fh) cs fh2).transactions =
      (coinsOfInterestFarmed env st cs fh).transactions := by
  have hrun1 := coinsOfInterestFarmed_success env st cs fh trade ht hknown
  have ht2 : getTradeByCoin (coinsOfInterestFarmed env st cs fh).trades cs.coin =
      some { trade with status := TradeStatus.confirmed,
                        confirmedAtIndex := farmHeight env trade.offer } := by
    rw [hrun1]
    exact getTradeByCoin_setStatus st.trades cs.coin trade TradeStatus.confirmed
      (farmHeight env trade.offer) hnd ht (by decide)
  have hrun2 := coinsOfInterestFarmed_success env (coinsOfInterestFarmed env st cs fh)
    cs fh2 { trade with status := TradeStatus.confirmed,
                        confirmedAtIndex := farmHeight env trade.offer } ht2 hknown
  rw [hrun2]
  constructor
  · intro t hmem hid
    exact setStatus_mem_status hmem hid
  · show (coinsOfInterestFarmed env st cs fh).transactions ++
      farmAdded env { trade with status := TradeStatus.confirmed,
                                 confirmedAtIndex := farmHeight env trade.offer } =
      (coinsOfInterestFarmed env st cs fh).transactions
    rw [farmAdded]
    simp

/-- C9 witness: the idempotency theorem applied at the C1-witness fixture. -/
theorem confirm_event_idempotent_witness :
    (∀ t ∈ (coinsOfInterestFarmed witEnv1 (coinsOfInterestFarmed witEnv1 witState1
        cexEvent1 none) cexEvent1 none).trades,
        t.tradeId = witTrade1.tradeId → t.status = TradeStatus.confirmed) ∧
    (coinsOfInterestFarmed witEnv1 (coinsOfInterestFarmed witEnv1 witState1
        cexEvent1 none) cexEvent1 none).transactions =
      (coinsOfInterestFarmed witEnv1 witState1 cexEvent1 none).transactions :=
  confirm_event_idempotent witEnv1 witState1 cexEvent1 none none witTrade1
    (by decide) rfl ⟨exSettlementB.name, by decide, by decide⟩

/-! ### C10: `get_trade_by_coin` and eligibility of terminal trades -/

/-- C10: `get_trade_by_coin` returns a trade containing the coin whose status
is not `CANCELLED`; it returns `None` exactly when no such trade exists; and a
trade already in the terminal status `CONFIRMED` or `FAILED` is still
eligible, so a later coin event re-runs the decision rule on it and can
re-transition its status (here: a `CONFIRMED`/`FAILED` trade is set to
`CONFIRMED` again by the success rule). -/
theorem get_trade_by_coin_spec :
    (∀ (trades : List TradeRecord) (coin : Coin) (t : TradeRecord),
        getTradeByCoin trades coin = some t →
          t ∈ trades ∧ coin ∈ t.coinsOfInterest ∧ t.status ≠ TradeStatus.cancelled) ∧
    (∀ (trades : List TradeRecord) (coin : Coin),
        getTradeByCoin trades coin = none →
          ∀ t ∈ trades, coin ∈ t.coinsOfInterest → t.status = TradeStatus.cancelled) ∧
    (∀ (env : Env) (st : TMState) (cs : CoinState) (fh : Option Nat)
        (trade : TradeRecord),
        getTradeByCoin st.trades cs.coin = some trade →
        (trade.status = TradeStatus.confirmed ∨ trade.status = TradeStatus.failed) →
        (∃ i ∈ ourSettlementIds env trade.offer, (ledgerLookup env.ledger i).isSome) →
        (coinsOfInterestFarmed env st cs fh).trades =
          setStatus st.trades trade.tradeId TradeStatus.confirmed
            (farmHeight env trade.offer)) := by
  refine ⟨?_, ?_, ?_⟩
  · intro trades coin t hfind
    have hmem := List.mem_of_find?_eq_some hfind
    have hp := List.find?_some hfind
    rw [tradeOwnsCoin, Bool.and_eq_true] at hp
    exact ⟨hmem, of_decide_eq_true hp.2, of_decide_eq_true hp.1⟩
  · intro trades coin hfind t hmem hcoin
    have hall := List.find?_eq_none.1 hfind t hmem
    rw [tradeOwnsCoin] at hall
    by_contra hne
    exact hall (by simp [hne, hcoin])
  · intro env st cs fh trade ht _ hknown
    exact (coinsOfInterestFarmed_success env st cs fh trade ht hknown) ▸ rfl

/-- C10-witness trade: a trade already in the terminal status `FAILED`. -/
def witTrade10 : TradeRecord :=
  { tradeId := 11, status := TradeStatus.failed, offer := witOffer1,
    coinsOfInterest := [exPrimary, exOther], confirmedAtIndex := none,
    isMyOffer := true }

/-- C10-witness store state. -/
def witState10 : TMState :=
  { trades := [witTrade10], transactions := [], pendingTradeTxs := [], pendingTxs := [] }

/-- C10 witness: a `FAILED` trade is still found by `get_trade_by_coin` and the
success rule re-transitions it to `CONFIRMED`. -/
theorem get_trade_by_coin_spec_witness :
    (coinsOfInterestFarmed witEnv1 witState10 cexEvent1 none).trades =
      setStatus witState10.trades witTrade10.tradeId TradeStatus.confirmed
        (farmHeight witEnv1 witTrade10.offer) :=
  get_trade_by_coin_spec.2.2 witEnv1 witState10 cexEvent1 none witTrade10 rfl
    (Or.inr rfl) ⟨exSettlementB.name, by decide, by decide⟩

/-! ### Offer construction: specification helpers over the entry list -/

/-- The keys of the offered (non-positive-amount) entries, in iteration
order. -/
def offeredKeys : List (OfferKey × Int) → List OfferKey
  | [] => []
  | (k, a) :: rest => if 0 < a then offeredKeys rest else k :: offeredKeys rest

/-- The fee arguments passed to the successive `get_coins_to_offer` calls,
starting from a remaining fee `f`: the first offered entry sees `f`, all
later ones see zero. -/
def feesOut (f : Nat) : List (OfferKey × Int) → List Nat
  | [] => []
  | (_, a) :: rest => if 0 < a then feesOut f rest else f :: feesOut 0 rest

/-- The last element of a key list, with default `d`: the final value of the
`wallet_paying_fee` local. -/
def lastK (d : Option OfferKey) : List OfferKey → Option OfferKey
  | [] => d
  | k :: rest => lastK (some k) rest

/-- Projection of a trace event to a `get_coins_to_offer` fee argument. -/
def gcFeeOf : TMEvent → Option Nat
  | TMEvent.getCoinsToOffer _ _ _ f => some f
  | _ => none

/-- Projection of a trace event to a `get_coins_to_offer` key. -/
def gcKeyOf : TMEvent → Option OfferKey
  | TMEvent.getCoinsToOffer k _ _ _ => some k
  | _ => none

/-- Projection of a trace event to a `create_offer_transactions` fee
argument. -/
def cotFeeOf : TMEvent → Option Nat
  | TMEvent.createOfferTransactions _ f => some f
  | _ => none

/-- Projection of a trace event to a `create_offer_transactions` key. -/
def cotKeyOf : TMEvent → Option OfferKey
  | TMEvent.createOfferTransactions k _ => some k
  | _ => none

/-- The fee arguments of the `get_coins_to_offer` calls in a trace. -/
def gcFees (t : List TMEvent) : List Nat := t.filterMap gcFeeOf

/-- The keys of the `get_coins_to_offer` calls in a trace. -/
def gcKeys (t : List TMEvent) : List OfferKey := t.filterMap gcKeyOf

/-- The fee arguments of the `create_offer_transactions` calls in a trace. -/
def cotFees (t : List TMEvent) : List Nat := t.filterMap cotFeeOf

/-- The keys of the `create_offer_transactions` calls in a trace. -/
def cotKeys (t : List TMEvent) : List OfferKey := t.filterMap cotKeyOf

/-! ### Offer construction: per-entry lemmas -/

theorem processEntry_pos (env : Env) (s : BuildState) (k : OfferKey) (a : Int)
    (ha : 0 < a) {s' : BuildState} (h : processEntry env s k a = (none, s')) :
    s'.feeLeft = s.feeLeft ∧ s'.coinsToOffer = s.coinsToOffer ∧
    s'.walletPayingFee = s.walletPayingFee ∧ s'.trace = s.trace := by
  unfold processEntry at h
  rw [if_pos ha] at h
  split at h
  · simp at h
  · split at h
    · simp at h
    · simp only [Prod.mk.injEq] at h
      obtain ⟨-, h2⟩ := h
      subst h2
      exact ⟨rfl, rfl, rfl, rfl⟩

theorem processEntry_neg (env : Env) (s : BuildState) (k : OfferKey) (a : Int)
    (ha : ¬ 0 < a) {s' : BuildState} (h : processEntry env s k a = (none, s')) :
    s'.feeLeft = 0 ∧ s'.walletPayingFee = some k ∧
    (∃ coins, s'.coinsToOffer = s.coinsToOffer ++ [(k, coins)]) ∧
    (∃ aid amt, s'.trace = s.trace ++ [TMEvent.getCoinsToOffer k aid amt s.feeLeft]) := by
  unfold processEntry at h
  rw [if_neg ha] at h
  split at h
  · simp at h
  · split at h
    · simp at h
    · split at h
      · simp at h
      · split at h
        · dsimp only at h
          split at h
          · simp at h
          · simp only [Prod.mk.injEq] at h
            obtain ⟨-, h2⟩ := h
            subst h2
            exact ⟨rfl, rfl, ⟨_, rfl⟩, ⟨_, _, rfl⟩⟩
        · simp at h

/-- An entry with amount zero always raises, before any external call: the
state (in particular the trace) is unchanged. -/
theorem processEntry_zero (env : Env) (s : BuildState) (k : OfferKey) :
    (∃ e, (processEntry env s k 0).1 = some e) ∧
    (processEntry env s k 0).2 = s := by
  unfold processEntry
  rw [if_neg (by decide)]
  split
  · exact ⟨⟨_, rfl⟩, rfl⟩
  · rw [if_pos rfl]
    exact ⟨⟨_, rfl⟩, rfl⟩

/-- Every `get_coins_to_offer` key in the trace after one entry was either
already there or is the entry's own key. -/
theorem processEntry_gcKeys (env : Env) (s : BuildState) (k : OfferKey) (a : Int)
    (k' : OfferKey) (h : k' ∈ gcKeys ((processEntry env s k a).2).trace) :
    k' ∈ gcKeys s.trace ∨ k' = k := by
  unfold processEntry at h
  split at h
  · split at h
    · exact Or.inl h
    · split at h
      · exact Or.inl h
      · exact Or.inl h
  · split at h
    · exact Or.inl h
    · split at h
      · exact Or.inl h
      · split at h
        · exact Or.inl h
        · split at h
          · dsimp only at h
            split at h
            · rename_i heq
              rw [gcKeys, List.filterMap_append] at h
              rcases List.mem_append.1 h with h1 | h2
              · exact Or.inl h1
              · simp [gcKeyOf] at h2
                exact Or.inr h2
            · rename_i heq
              rw [gcKeys, List.filterMap_append] at h
              rcases List.mem_append.1 h with h1 | h2
              · exact Or.inl h1
              · simp [gcKeyOf] at h2
                exact Or.inr h2
          · exact Or.inl h

/-! ### Offer construction: loop-level lemmas -/

/-- The first loop, on success, queries `get_coins_to_offer` exactly once per
offered entry in iteration order, passing the remaining fee to the first and
zero to the rest; it makes no `create_offer_transactions` call; it leaves
`wallet_paying_fee` at the *last* offered key; and it accumulates the offered
coins keyed in iteration order. -/
theorem processEntries_ok_spec (env : Env) :
    ∀ (entries : List (OfferKey × Int)) (s s' : BuildState),
    processEntries env s entries = (none, s') →
    gcFees s'.trace = gcFees s.trace ++ feesOut s.feeLeft entries ∧
    gcKeys s'.trace = gcKeys s.trace ++ offeredKeys entries ∧
    cotKeys s'.trace = cotKeys s.trace ∧
    cotFees s'.trace = cotFees s.trace ∧
    s'.walletPayingFee = lastK s.walletPayingFee (offeredKeys entries) ∧
    s'.coinsToOffer.map Prod.fst = s.coinsToOffer.map Prod.fst ++ offeredKeys entries := by
  intro entries
  induction entries with
  | nil =>
    intro s s' h
    unfold processEntries at h
    simp only [Prod.mk.injEq] at h
    obtain ⟨-, h2⟩ := h
    subst h2
    simp [feesOut, offeredKeys, lastK]
  | cons e rest ih =>
    obtain ⟨k, a⟩ := e
    intro s s' h
    unfold processEntries at h
    cases hpe : processEntry env s k a with
    | mk res s1 =>
      rw [hpe] at h
      cases res with
      | some e' => simp at h
      | none =>
        have hih := ih s1 s' h
        by_cases hpos : 0 < a
        · obtain ⟨hf, hc, hw, htr⟩ := processEntry_pos env s k a hpos hpe
          rw [htr, hf, hc, hw] at hih
          simpa [offeredKeys, feesOut, hpos] using hih
        · obtain ⟨hf, hw, ⟨coins, hc⟩, ⟨aid, amt, htr⟩⟩ := processEntry_neg env s k a hpos hpe
          rw [htr, hf, hw, hc] at hih
          obtain ⟨h1, h2, h3, h4, h5, h6⟩ := hih
          refine ⟨?_, ?_, ?_, ?_, ?_, ?_⟩
          · rw [h1, feesOut, if_neg hpos]
            simp [gcFees, List.filterMap_append, gcFeeOf]
          · rw [h2, offeredKeys, if_neg hpos]
            simp [gcKeys, List.filterMap_append, gcKeyOf]
          · rw [h3]
            simp [cotKeys, List.filterMap_append, cotKeyOf]
          · rw [h4]
            simp [cotFees, List.filterMap_append, cotFeeOf]
          · rw [h5, offeredKeys, if_neg hpos, lastK]
          · rw [h6, offeredKeys, if_neg hpos]
            simp

/-- Once the offer dictionary contains a zero-amount entry, the first loop
raises (at that entry or earlier). -/
theorem processEntries_zero_fails (env : Env) (k : OfferKey) :
    ∀ (entries : List (OfferKey × Int)) (s : BuildState), (k, (0 : Int)) ∈ entries →
    (processEntries env s entries).1 ≠ none := by
  intro entries
  induction entries with
  | nil =>
    intro s hmem
    simp at hmem
  | cons e rest ih =>
    intro s hmem
    obtain ⟨k0, a0⟩ := e
    unfold processEntries
    cases hpe : processEntry env s k0 a0 with
    | mk res s1 =>
      cases res with
      | some e' => simp
      | none =>
        rcases List.mem_cons.1 hmem with hEq | hMem
        · exfalso
          have hk0 : k0 = k ∧ a0 = 0 := by
            have := Prod.mk.injEq k (0 : Int) k0 a0 ▸ hEq
            simp at this
            exact ⟨this.1.symm, this.2.symm⟩
          obtain ⟨he, -⟩ := processEntry_zero env s k0
          obtain ⟨e', he'⟩ := he
          rw [hk0.2] at hpe
          rw [hpe] at he'
          simp at he'
        · exact ih s1 hMem

/-- If every entry under key `k` has amount zero, no `get_coins_to_offer` call
is ever made for `k`. -/
theorem processEntries_gcKeys_zero (env : Env) (k : OfferKey) :
    ∀ (entries : List (OfferKey × Int)) (s : BuildState),
    k ∉ gcKeys s.trace → (∀ a, (k, a) ∈ entries → a = 0) →
    k ∉ gcKeys ((processEntries env s entries).2).trace := by
  intro entries
  induction entries with
  | nil =>
    intro s hnotin _
    exact hnotin
  | cons e rest ih =>
    intro s hnotin hzero
    obtain ⟨k0, a0⟩ := e
    unfold processEntries
    cases hpe : processEntry env s k0 a0 with
    | mk res s1 =>
      have hnotin1 : k ∉ gcKeys s1.trace := by
        intro hk
        have hk' : k ∈ gcKeys ((processEntry env s k0 a0).2).trace := by
          rw [hpe]
          exact hk
        rcases processEntry_gcKeys env s k0 a0 k hk' with hin | hkk
        · exact hnotin hin
        · have ha0 : a0 = 0 := hzero a0 (by rw [hkk]; exact List.mem_cons_self _ _)
          obtain ⟨-, hstate⟩ := processEntry_zero env s k0
          rw [ha0] at hpe
          rw [hpe] at hstate
          simp only at hstate
          rw [hstate] at hk
          exact hnotin hk
      cases res with
      | some e' => exact hnotin1
      | none => exact ih s1 hnotin1 (fun a ha => hzero a (List.mem_cons_of_mem _ ha))

theorem feesOut_zero (l : List (OfferKey × Int)) :
    feesOut 0 l = List.replicate (offeredKeys l).length 0 := by
  induction l with
  | nil => rfl
  | cons e rest ih =>
    obtain ⟨k, a⟩ := e
    by_cases h : 0 < a <;>
      simp [feesOut, offeredKeys, h, ih, List.replicate_succ]

theorem feesOut_eq (f : Nat) (l : List (OfferKey × Int)) (h : offeredKeys l ≠ []) :
    feesOut f l = f :: List.replicate ((offeredKeys l).length - 1) 0 := by
  induction l with
  | nil => simp [offeredKeys] at h
  | cons e rest ih =>
    obtain ⟨k, a⟩ := e
    by_cases hp : 0 < a
    · rw [feesOut, if_pos hp]
      rw [offeredKeys, if_pos hp] at h ⊢
      exact ih h
    · rw [feesOut, if_neg hp, feesOut_zero, offeredKeys, if_neg hp]
      simp

theorem offeredKeys_sublist (l : List (OfferKey × Int)) :
    (offeredKeys l).Sublist (l.map Prod.fst) := by
  induction l with
  | nil => simp [offeredKeys]
  | cons e rest ih =>
    obtain ⟨k, a⟩ := e
    by_cases h : 0 < a
    · rw [offeredKeys, if_pos h, List.map_cons]
      exact ih.cons _
    · rw [offeredKeys, if_neg h, List.map_cons]
      exact ih.cons₂ _

theorem lastK_mem (d : Option OfferKey) (l : List OfferKey) (h : l ≠ []) :
    ∃ m ∈ l, lastK d l = some m := by
  induction l generalizing d with
  | nil => exact absurd rfl h
  | cons k rest ih =>
    cases rest with
    | nil => exact ⟨k, List.mem_cons_self _ _, rfl⟩
    | cons k2 r2 =>
      obtain ⟨m, hm, he⟩ := ih (some k) (by simp)
      exact ⟨m, List.mem_cons_of_mem _ hm, he⟩

/-- Mapping "fee if this key is the `wallet_paying_fee` key" over a
duplicate-free key list whose paying key is its last element charges zero
everywhere except the last position. -/
theorem payMap_last (fee : Nat) :
    ∀ (ks : List OfferKey) (d : Option OfferKey), ks.Nodup → ks ≠ [] →
    ks.map (fun k => if some k = lastK d ks then fee else 0) =
      List.replicate (ks.length - 1) 0 ++ [fee] := by
  intro ks
  induction ks with
  | nil => intro d _ h; exact absurd rfl h
  | cons k rest ih =>
    intro d hnd _
    cases rest with
    | nil => simp [lastK]
    | cons k2 r2 =>
      have hne : (k2 :: r2 : List OfferKey) ≠ [] := by simp
      obtain ⟨m, hm, hlast⟩ := lastK_mem (some k) (k2 :: r2) hne
      have hk : k ∉ (k2 :: r2 : List OfferKey) := (List.nodup_cons.1 hnd).1
      have hknd : (k2 :: r2 : List OfferKey).Nodup := (List.nodup_cons.1 hnd).2
      rw [List.map_cons]
      have hstep : lastK d (k :: k2 :: r2) = lastK (some k) (k2 :: r2) := rfl
      rw [hstep]
      have hhead : (if some k = lastK (some k) (k2 :: r2) then fee else 0) = 0 := by
        rw [hlast, if_neg]
        intro hc
        exact hk (Option.some_inj.1 hc ▸ hm)
      rw [hhead, ih (some k) hknd hne]
      simp [List.replicate_succ]

/-- The second loop, on success, makes one `create_offer_transactions` call
per accumulated offered asset, in order, attaching the fee exactly where the
key is `wallet_paying_fee`; it makes no `get_coins_to_offer` call. -/
theorem secondLoop_ok (env : Env) (fee : Nat) (paying : Option OfferKey) :
    ∀ (l : List (OfferKey × List Coin)) (evs : List TMEvent),
    secondLoop env fee paying l = (none, evs) →
    cotKeys evs = l.map Prod.fst ∧
    cotFees evs = l.map (fun e => if some e.1 = paying then fee else 0) ∧
    gcKeys evs = [] ∧ gcFees evs = [] := by
  intro l
  induction l with
  | nil =>
    intro evs h
    unfold secondLoop at h
    simp only [Prod.mk.injEq] at h
    obtain ⟨-, h2⟩ := h
    subst h2
    simp [cotKeys, cotFees, gcKeys, gcFees]
  | cons e rest ih =>
    obtain ⟨k, coins⟩ := e
    intro evs h
    unfold secondLoop at h
    split at h
    · simp at h
    · split at h
      · dsimp only at h
        simp only [Prod.mk.injEq] at h
        obtain ⟨hres, h2⟩ := h
        subst h2
        have heq2 : secondLoop env fee paying rest =
            (none, (secondLoop env fee paying rest).2) := by
          rw [← hres]
        obtain ⟨h1, h2, h3, h4⟩ := ih _ heq2
        refine ⟨?_, ?_, ?_, ?_⟩
        · simpa [cotKeys, cotKeyOf] using h1
        · simpa [cotFees, cotFeeOf] using h2
        · simpa [gcKeys, gcKeyOf] using h3
        · simpa [gcFees, gcFeeOf] using h4
      · simp at h

/-! ### C3: fee attribution in `_create_offer_for_ids` -/

/-- C3 (amended): on a successful construction with at least one offered
entry (keys duplicate-free, as in a Python dict), the *first* offered asset in
iteration order receives the entire remaining fee in its `get_coins_to_offer`
call and all later offered assets receive zero there; but the `fee` parameter
of `create_offer_transactions` is attached to the *last* offered asset in
iteration order (all the others get zero), because `wallet_paying_fee = id` is
re-assigned on every offered entry.  The two coincide exactly when there is a
single offered asset. -/
theorem offer_fee_attribution_amended (env : Env) (entries : List (OfferKey × Int))
    (dd0 : List (Nat × Nat)) (fee : Nat) (offer : Offer) (trace : List TMEvent)
    (hnd : (entries.map Prod.fst).Nodup)
    (hok : createOfferInner env entries dd0 fee = (Except.ok offer, trace))
    (hne : offeredKeys entries ≠ []) :
    gcKeys trace = offeredKeys entries ∧
    gcFees trace = fee :: List.replicate ((offeredKeys entries).length - 1) 0 ∧
    cotKeys trace = offeredKeys entries ∧
    cotFees trace = List.replicate ((offeredKeys entries).length - 1) 0 ++ [fee] := by
  unfold createOfferInner at hok
  cases hpe : processEntries env (initBuildState dd0 fee) entries with
  | mk res s =>
    rw [hpe] at hok
    cases res with
    | some e => simp at hok
    | none =>
      dsimp only at hok
      cases hsl : secondLoop env fee s.walletPayingFee s.coinsToOffer with
      | mk res2 evs =>
        rw [hsl] at hok
        cases res2 with
        | some e => simp at hok
        | none =>
          dsimp only at hok
          simp only [Prod.mk.injEq] at hok
          obtain ⟨-, htr⟩ := hok
          subst htr
          obtain ⟨hf, hk, hck, hcf, hpay, hco⟩ :=
            processEntries_ok_spec env entries _ s hpe
          simp only [initBuildState] at hf hk hck hcf hpay hco
          simp only [gcFees, gcKeys, cotKeys, cotFees, List.filterMap_nil,
            List.nil_append, List.map_nil] at hf hk hck hcf hco
          obtain ⟨g1, g2, g3, g4⟩ :=
            secondLoop_ok env fee s.walletPayingFee s.coinsToOffer evs hsl
          have hnodup : (offeredKeys entries).Nodup :=
            (offeredKeys_sublist entries).nodup hnd
          refine ⟨?_, ?_, ?_, ?_⟩
          · simp only [gcKeys, List.filterMap_append]
            simp only [gcKeys] at hk g3
            rw [hk, g3, List.append_nil]
          · simp only [gcFees, List.filterMap_append]
            simp only [gcFees] at hf g4
            rw [hf, g4, List.append_nil, feesOut_eq fee entries hne]
          · simp only [cotKeys, List.filterMap_append]
            simp only [cotKeys] at hck g1
            rw [hck, g1, hco, List.nil_append]
          · simp only [cotFees, List.filterMap_append]
            simp only [cotFees] at hcf g2
            rw [hcf, g2, List.nil_append]
            have hmm : s.coinsToOffer.map (fun e => if some e.1 = s.walletPayingFee
                then fee else 0) =
                (s.coinsToOffer.map Prod.fst).map (fun k => if some k = s.walletPayingFee
                  then fee else 0) := by
              rw [List.map_map]
              rfl
            rw [hmm, hco, hpay]
            exact payMap_last fee (offeredKeys entries) none hnodup hne

/-- C3/C8 fixture environment: two standard wallets with ids 1 and 2. -/
def witEnv3 : Env :=
  { baseEnv with
    wallets := fun n =>
      if n = 1 then some { exWallet with wid := 1 }
      else if n = 2 then some { exWallet with wid := 2 }
      else none }

/-- C3 fixture entries: two offered (negative) amounts. -/
def witEntries3 : List (OfferKey × Int) := [(Sum.inl 1, -5), (Sum.inl 2, -7)]

/-- The trace of the C3 fixture construction (fee 10). -/
def witTrace3 : List TMEvent := (createOfferInner witEnv3 witEntries3 [] 10).2

/-- The offer assembled by the C3 fixture construction. -/
def witOffer3 : Offer := emptyOffer

/-- C3 witness: the amended theorem applied at the two-asset fixture. -/
theorem offer_fee_attribution_amended_witness :
    gcKeys witTrace3 = offeredKeys witEntries3 ∧
    gcFees witTrace3 = 10 :: List.replicate ((offeredKeys witEntries3).length - 1) 0 ∧
    cotKeys witTrace3 = offeredKeys witEntries3 ∧
    cotFees witTrace3 = List.replicate ((offeredKeys witEntries3).length - 1) 0 ++ [10] :=
  offer_fee_attribution_amended witEnv3 witEntries3 [] 10 witOffer3 witTrace3
    (by decide) rfl (by decide)

/-- C3 counterexample: with two offered assets and fee 10, the claim predicts
`create_offer_transactions` fees `[10, 0]` (single owner: the first offered
asset), but the code produces `[0, 10]`: `get_coins_to_offer` saw the fee on
the first asset while `create_offer_transactions` attached it to the last. -/
theorem offer_fee_attribution_claim_cex :
    witTrace3 = [TMEvent.getCoinsToOffer (Sum.inl 1) none 5 10,
                 TMEvent.getCoinsToOffer (Sum.inl 2) none 7 0,
                 TMEvent.createOfferTransactions (Sum.inl 1) 0,
                 TMEvent.createOfferTransactions (Sum.inl 2) 10] ∧
    cotFees witTrace3 = [0, 10] ∧
    ([0, 10] : List Nat) ≠ [10, 0] :=
  ⟨rfl, rfl, by decide⟩

/-! ### C8: zero-amount entries -/

/-- Under duplicate-free keys, an entry `(k, 0)` is the only entry with key
`k`. -/
theorem nodup_key_zero (k : OfferKey) (entries : List (OfferKey × Int))
    (hnd : (entries.map Prod.fst).Nodup) (hmem : (k, (0 : Int)) ∈ entries) :
    ∀ a, (k, a) ∈ entries → a = 0 := by
  induction entries with
  | nil => simp at hmem
  | cons e rest ih =>
    obtain ⟨k0, a0⟩ := e
    rw [List.map_cons] at hnd
    have hnd2 := List.nodup_cons.1 hnd
    intro a ha
    rcases List.mem_cons.1 hmem with hm1 | hm2
    · have hk0 : k0 = k ∧ a0 = 0 := by
        have := Prod.mk.injEq k (0 : Int) k0 a0 ▸ hm1
        simp at this
        exact ⟨this.1.symm, this.2.symm⟩
      rcases List.mem_cons.1 ha with ha1 | ha2
      · have := Prod.mk.injEq k a k0 a0 ▸ ha1
        simp at this
        rw [this.2, hk0.2]
      · exfalso
        apply hnd2.1
        rw [hk0.1]
        exact List.mem_map.2 ⟨(k, a), ha2, rfl⟩
    · rcases List.mem_cons.1 ha with ha1 | ha2
      · exfalso
        have := Prod.mk.injEq k a k0 a0 ▸ ha1
        simp at this
        apply hnd2.1
        exact this.1 ▸ List.mem_map.2 ⟨(k, (0 : Int)), hm2, rfl⟩
      · exact ih hnd2.2 hm2 a ha2

/-- Processing a dictionary with a zero entry stops no later than that entry:
the final loop state (in particular the trace of external calls) is that of
processing the prefix alone, because the zero entry itself raises without
touching the state. -/
theorem processEntries_zero_stops (env : Env) :
    ∀ (pre : List (OfferKey × Int)) (s : BuildState) (k : OfferKey)
      (post : List (OfferKey × Int)),
    (processEntries env s (pre ++ (k, (0 : Int)) :: post)).2 =
      (processEntries env s pre).2 := by
  intro pre
  induction pre with
  | nil =>
    intro s k post
    obtain ⟨⟨e, he⟩, hst⟩ := processEntry_zero env s k
    rw [List.nil_append]
    unfold processEntries
    cases hpe : processEntry env s k 0 with
    | mk res s1 =>
      rw [hpe] at he hst
      cases res with
      | some e2 => exact hst
      | none => simp at he
  | cons e0 rest ih =>
    intro s k post
    obtain ⟨k0, a0⟩ := e0
    rw [List.cons_append]
    unfold processEntries
    cases hpe : processEntry env s k0 a0 with
    | mk res s1 =>
      cases res with
      | some e2 => rfl
      | none => exact ih s1 k post

/-- A key that occurs in no entry is never queried by the first loop. -/
theorem processEntries_gcKeys_subset (env : Env) (k' : OfferKey) :
    ∀ (entries : List (OfferKey × Int)) (s : BuildState),
    k' ∉ gcKeys s.trace → k' ∉ entries.map Prod.fst →
    k' ∉ gcKeys ((processEntries env s entries).2).trace := by
  intro entries
  induction entries with
  | nil =>
    intro s h _
    exact h
  | cons e0 rest ih =>
    intro s hnotin hkeys
    obtain ⟨k0, a0⟩ := e0
    rw [List.map_cons] at hkeys
    have hk0 : k' ≠ k0 := by
      intro hc
      exact hkeys (by rw [hc]; exact List.mem_cons_self _ _)
    have hrest : k' ∉ rest.map Prod.fst :=
      fun hc => hkeys (List.mem_cons_of_mem _ hc)
    unfold processEntries
    cases hpe : processEntry env s k0 a0 with
    | mk res s1 =>
      have hnotin1 : k' ∉ gcKeys s1.trace := by
        intro hk
        have hk2 : k' ∈ gcKeys ((processEntry env s k0 a0).2).trace := by
          rw [hpe]
          exact hk
        rcases processEntry_gcKeys env s k0 a0 k' hk2 with hin | hkk
        · exact hnotin hin
        · exact hk0 hkk
      cases res with
      | some e2 => exact hnotin1
      | none => exact ih s1 hnotin1 hrest

/-- C8 (amended): an offer dictionary containing a zero-amount entry always
fails construction (`_create_offer_for_ids` returns a failure), and no
`get_coins_to_offer` call is ever made for the zero entry *or for any entry
after it in iteration order* (processing raises at the zero entry or
earlier) — but entries *earlier* in iteration order may already have queried
their coins before the failure is raised, since the zero check runs per-entry
inside the loop. -/
theorem zero_amount_fails_amended (env : Env) (pre post : List (OfferKey × Int))
    (dd0 : List (Nat × Nat)) (fee : Nat) (k : OfferKey)
    (hnd : ((pre ++ (k, (0 : Int)) :: post).map Prod.fst).Nodup) :
    (∃ e, (createOfferInner env (pre ++ (k, (0 : Int)) :: post) dd0 fee).1 =
      Except.error e) ∧
    k ∉ gcKeys (createOfferInner env (pre ++ (k, (0 : Int)) :: post) dd0 fee).2 ∧
    (∀ k' ∈ post.map Prod.fst,
      k' ∉ gcKeys (createOfferInner env (pre ++ (k, (0 : Int)) :: post) dd0 fee).2) := by
  have hmem : (k, (0 : Int)) ∈ pre ++ (k, (0 : Int)) :: post :=
    List.mem_append.2 (Or.inr (List.mem_cons_self _ _))
  have hfail := processEntries_zero_fails env k _ (initBuildState dd0 fee) hmem
  have hzero : ∀ a, (k, a) ∈ pre ++ (k, (0 : Int)) :: post → a = 0 :=
    nodup_key_zero k _ hnd hmem
  have hgc := processEntries_gcKeys_zero env k _ (initBuildState dd0 fee)
    (by simp [initBuildState, gcKeys]) hzero
  have hstops := processEntries_zero_stops env pre (initBuildState dd0 fee) k post
  cases hpe : processEntries env (initBuildState dd0 fee)
      (pre ++ (k, (0 : Int)) :: post) with
  | mk res s =>
    rw [hpe] at hgc hstops
    cases res with
    | none =>
      rw [hpe] at hfail
      simp at hfail
    | some e =>
      unfold createOfferInner
      rw [hpe]
      refine ⟨⟨e, rfl⟩, hgc, ?_⟩
      intro k' hk'
      have hpreNot : k' ∉ pre.map Prod.fst := by
        rw [List.map_append, List.map_cons, List.nodup_append] at hnd
        intro hc
        exact hnd.2.2 hc (List.mem_cons_of_mem _ hk')
      have hsub := processEntries_gcKeys_subset env k' pre (initBuildState dd0 fee)
        (by simp [initBuildState, gcKeys]) hpreNot
      show k' ∉ gcKeys s.trace
      dsimp only at hstops
      rw [hstops]
      exact hsub

/-- C8 fixture entries: a valid offered entry followed by a zero entry. -/
def cexEntries8 : List (OfferKey × Int) := [(Sum.inl 1, -5), (Sum.inl 2, 0)]

/-- C8 witness: the amended theorem applied with an offered entry before the
zero entry and another offered entry after it: construction fails, the zero
entry's key and the later entry's key are never queried. -/
theorem zero_amount_fails_amended_witness :
    (∃ e, (createOfferInner witEnv3
      ([(Sum.inl 1, -5)] ++ (Sum.inl 2, (0 : Int)) :: [(Sum.inl 3, -4)]) [] 3).1 =
      Except.error e) ∧
    (Sum.inl 2 : OfferKey) ∉ gcKeys (createOfferInner witEnv3
      ([(Sum.inl 1, -5)] ++ (Sum.inl 2, (0 : Int)) :: [(Sum.inl 3, -4)]) [] 3).2 ∧
    (Sum.inl 3 : OfferKey) ∉ gcKeys (createOfferInner witEnv3
      ([(Sum.inl 1, -5)] ++ (Sum.inl 2, (0 : Int)) :: [(Sum.inl 3, -4)]) [] 3).2 := by
  have h := zero_amount_fails_amended witEnv3 [(Sum.inl 1, -5)] [(Sum.inl 3, -4)]
    [] 3 (Sum.inl 2) (by decide)
  exact ⟨h.1, h.2.1, h.2.2 (Sum.inl 3) (by simp)⟩

/-- C8 counterexample: the dictionary contains a zero entry, yet a
`get_coins_to_offer` call *was* made (for the first entry) before construction
failed — contradicting "no get_coins_to_offer call is made for any entry". -/
theorem zero_amount_fails_claim_cex :
    ((Sum.inl 2, (0 : Int)) ∈ cexEntries8) ∧
    gcKeys (createOfferInner witEnv3 cexEntries8 [] 3).2 = [Sum.inl 1] ∧
    ([Sum.inl 1] : List OfferKey) ≠ [] :=
  ⟨by simp [cexEntries8], rfl, by decide⟩

/-! ### C6: construction errors at the public boundary -/

/-- The empty store state. -/
def st0 : TMState :=
  { trades := [], transactions := [], pendingTradeTxs := [], pendingTxs := [] }

/-- Whether a result models an uncaught exception. -/
def raisesException {α : Type} : Except String α → Bool
  | Except.error _ => true
  | Except.ok _ => false

/-- C6 (amended): `_create_offer_for_ids` catches construction errors (driver
conflict, unintegrated wallet, zero amount, missing capability) and returns a
structured failure result, and on failure no trade state is persisted
(`create_offer_for_ids` leaves the store unchanged, `respond_to_offer`'s
accept path returns the error as a failure result without persisting); but
`create_offer_for_ids` itself *raises* `Exception("Error creating offer:
...")` instead of returning a failure result, so construction errors do
escape the trade manager's public boundary there. -/
theorem construction_error_boundary_amended (env : Env) (st : TMState)
    (entries : List (OfferKey × Int)) (dd0 : List (Nat × Nat)) (fee : Nat)
    (v : Bool) (e : String) (tr : List TMEvent)
    (hfail : createOfferInner env entries dd0 fee = (Except.error e, tr)) :
    (createOfferForIds env st entries dd0 fee v).1 =
      Except.error ("Error creating offer: " ++ e) ∧
    (createOfferForIds env st entries dd0 fee v).2.1 = st ∧
    (∀ offer : Offer, offer.driverDict = dd0 →
      respondRest env st offer entries fee =
        (Except.ok { success := false, trade := none, error := some e }, st, tr)) := by
  refine ⟨?_, ?_, ?_⟩
  · unfold createOfferForIds
    rw [hfail]
  · unfold createOfferForIds
    rw [hfail]
  · intro offer hdd
    unfold respondRest
    rw [hdd, hfail]

/-- C6 witness: the amended theorem applied at the zero-amount fixture. -/
theorem construction_error_boundary_amended_witness :
    (createOfferForIds witEnv3 st0 cexEntries8 [] 3 false).1 =
      Except.error ("Error creating offer: " ++
        "You cannot offer nor request 0 amount of something") ∧
    (createOfferForIds witEnv3 st0 cexEntries8 [] 3 false).2.1 = st0 ∧
    respondRest witEnv3 st0 emptyOffer cexEntries8 3 =
      (Except.ok { success := false, trade := none,
                   error := some "You cannot offer nor request 0 amount of something" },
       st0, [TMEvent.getCoinsToOffer (Sum.inl 1) none 5 3]) := by
  have h := construction_error_boundary_amended witEnv3 st0 cexEntries8 [] 3 false
    "You cannot offer nor request 0 amount of something"
    [TMEvent.getCoinsToOffer (Sum.inl 1) none 5 3] rfl
  exact ⟨h.1, h.2.1, h.2.2 emptyOffer rfl⟩

/-- C6 counterexample: at this input `_create_offer_for_ids` fails with the
zero-amount error and `create_offer_for_ids` raises (`Except.error`, an
uncaught `Exception`) rather than returning a failure result. -/
theorem create_offer_for_ids_raises_cex :
    raisesException (createOfferForIds witEnv3 st0 cexEntries8 [] 3 false).1 = true ∧
    (createOfferForIds witEnv3 st0 cexEntries8 [] 3 false).1 =
      Except.error ("Error creating offer: " ++
        "You cannot offer nor request 0 amount of something") :=
  ⟨rfl, rfl⟩

/-! ### C5: stale offers abort `respond_to_offer` without state change -/

/-- C5: when the arbitrage loop resolves (no missing-wallet return) and
`check_offer_validity` is false, `respond_to_offer` returns the failure result
with the stale-offer message, the persisted state is exactly the input state
(no trade record saved, no transaction queued or submitted), and no external
construction call is made (empty trace: no complementary offer is built). -/
theorem respond_stale_offer_aborts (env : Env) (st : TMState) (offer : Offer)
    (fee : Nat) (takeDict : List (OfferKey × Int))
    (hdict : buildTakeOfferDict env offer.arbitrage = Except.ok takeDict)
    (hstale : checkOfferValidity env offer = false) :
    respondToOffer env st offer fee =
      (Except.ok { success := false, trade := none,
                   error := some "This offer is no longer valid" }, st, []) := by
  unfold respondToOffer
  rw [hdict]
  dsimp only
  rw [hstale]
  simp

/-- C5-witness offer: it consumes a coin unknown to the (empty) ledger, so the
validity check fails; its arbitrage map is empty, so the wallet loop passes. -/
def cexOffer5 : Offer := { emptyOffer with bundleRemovals := [exPrimary] }

/-- C5 witness: the theorem applied at the stale-offer fixture. -/
theorem respond_stale_offer_aborts_witness :
    respondToOffer baseEnv st0 cexOffer5 2 =
      (Except.ok { success := false, trade := none,
                   error := some "This offer is no longer valid" }, st0, []) :=
  respond_stale_offer_aborts baseEnv st0 cexOffer5 2 [] rfl rfl

/-! ### C7: safe cancellation -/

/-- The wallet-generated spend transactions among the cancel transactions (the
manager's own cancellation bookkeeping records carry the addition). -/
def spendTxs (l : List TransactionRecordM) : List TransactionRecordM :=
  l.filter (fun t => t.additions.isEmpty)

/-- Total input of the cancel spend set: the sum of the removals of the
wallet-generated transactions. -/
def inputSum (l : List TransactionRecordM) : Nat :=
  ((spendTxs l).map (fun t => (t.removals.map Coin.amount).sum)).sum

/-- Total reassigned amount: the sum of the amounts re-spent to the fresh
addresses by the wallet-generated transactions. -/
def reassignedSum (l : List TransactionRecordM) : Nat :=
  ((spendTxs l).map (fun t => t.amount)).sum

theorem spendTxs_cons_keep {t : TransactionRecordM} (h : t.additions = [])
    (l : List TransactionRecordM) : spendTxs (t :: l) = t :: spendTxs l := by
  unfold spendTxs
  rw [List.filter_cons_of_pos]
  rw [h]
  rfl

theorem spendTxs_cons_drop {t : TransactionRecordM} {c : Coin} {cs : List Coin}
    (h : t.additions = c :: cs) (l : List TransactionRecordM) :
    spendTxs (t :: l) = spendTxs l := by
  unfold spendTxs
  rw [List.filter_cons_of_neg]
  rw [h]
  simp

/-- Selected coins always cover the remaining fee, given the wallet's
`select_coins` covers what it is asked for. -/
theorem cancelSelected_sum_ge (w : WalletModel) (c : Coin) (f : Nat)
    (hsel : ∀ amt excl, amt ≤ ((w.selectCoins amt excl).map Coin.amount).sum) :
    f ≤ ((cancelSelected w c f).map Coin.amount).sum := by
  unfold cancelSelected
  by_cases h : c.amount < f
  · rw [if_pos h]
    have hs := hsel (f - c.amount) [c]
    simp only [List.map_cons, List.sum_cons]
    omega
  · rw [if_neg h]
    simp only [List.map_cons, List.map_nil, List.sum_cons, List.sum_nil]
    omega

/-- Unfolding one standard-wallet iteration of the cancel loop. -/
theorem cancelLoop_cons_standard (env : Env) (fee : Nat) (c : Coin)
    (rest : List Coin) (f : Nat) (w : WalletModel)
    (hw : env.walletForCoin c.name = some w)
    (hstd : w.wtype = WalletType.standardWallet) :
    cancelLoop env fee (c :: rest) f =
      { confirmedAtHeight := some 0, toPuzzleHash := w.newPuzzleHash,
        amount := ((cancelSelected w c f).map Coin.amount).sum - f,
        feeAmount := f, confirmed := false, additions := [],
        removals := cancelSelected w c f, txName := 0 } ::
      { confirmedAtHeight := some 0, toPuzzleHash := w.newPuzzleHash,
        amount := c.amount, feeAmount := fee, confirmed := false,
        additions := [Coin.mk c.name w.newPuzzleHash c.amount],
        removals := [c], txName := (Coin.mk c.name w.newPuzzleHash c.amount).name } ::
      cancelLoop env fee rest 0 := by
  conv_lhs => rw [cancelLoop]
  rw [hw]
  simp [hstd]

/-- The cancel loop over all-standard wallets: the fee is charged in full to
the first processed coin and zero afterwards; total input equals the
threaded fee plus the total reassigned amount; and every coin is re-spent to
its wallet's freshly derived puzzle hash. -/
theorem cancelLoop_spec (env : Env) (fee : Nat) :
    ∀ (cs : List Coin) (f : Nat),
    (∀ c ∈ cs, ∃ w, env.walletForCoin c.name = some w ∧
        w.wtype = WalletType.standardWallet ∧
        (∀ amt excl, amt ≤ ((w.selectCoins amt excl).map Coin.amount).sum)) →
    ((spendTxs (cancelLoop env fee cs f)).map (fun t => t.feeAmount) =
      (if cs = [] then [] else f :: List.replicate (cs.length - 1) 0)) ∧
    inputSum (cancelLoop env fee cs f) =
      (if cs = [] then 0 else f) + reassignedSum (cancelLoop env fee cs f) ∧
    (∀ c ∈ cs, ∀ w, env.walletForCoin c.name = some w →
      ∃ tx ∈ cancelLoop env fee cs f, tx.removals = [c] ∧
        tx.toPuzzleHash = w.newPuzzleHash ∧
        tx.additions = [Coin.mk c.name w.newPuzzleHash c.amount]) := by
  intro cs
  induction cs with
  | nil =>
    intro f _
    refine ⟨by simp [cancelLoop, spendTxs], by simp [cancelLoop, inputSum,
      reassignedSum, spendTxs], by simp⟩
  | cons c rest ih =>
    intro f hall
    obtain ⟨w, hw, hstd, hsel⟩ := hall c (List.mem_cons_self _ _)
    have hrest := fun c hc => hall c (List.mem_cons_of_mem _ hc)
    obtain ⟨ih1, ih2, ih3⟩ := ih 0 hrest
    have hge := cancelSelected_sum_ge w c f hsel
    rw [cancelLoop_cons_standard env fee c rest f w hw hstd]
    have hs1 : spendTxs
        ({ confirmedAtHeight := some 0, toPuzzleHash := w.newPuzzleHash,
           amount := ((cancelSelected w c f).map Coin.amount).sum - f,
           feeAmount := f, confirmed := false, additions := [],
           removals := cancelSelected w c f, txName := 0 } ::
         { confirmedAtHeight := some 0, toPuzzleHash := w.newPuzzleHash,
           amount := c.amount, feeAmount := fee, confirmed := false,
           additions := [Coin.mk c.name w.newPuzzleHash c.amount],
           removals := [c], txName := (Coin.mk c.name w.newPuzzleHash c.amount).name } ::
         cancelLoop env fee rest 0) =
        { confirmedAtHeight := some 0, toPuzzleHash := w.newPuzzleHash,
          amount := ((cancelSelected w c f).map Coin.amount).sum - f,
          feeAmount := f, confirmed := false, additions := [],
          removals := cancelSelected w c f, txName := 0 } ::
        spendTxs (cancelLoop env fee rest 0) := by
      rw [spendTxs_cons_keep rfl, spendTxs_cons_drop rfl]
    have hrep : (if rest = [] then ([] : List Nat)
        else 0 :: List.replicate (rest.length - 1) 0) =
        List.replicate rest.length 0 := by
      cases rest with
      | nil => simp
      | cons x xs => simp [List.replicate_succ]
    refine ⟨?_, ?_, ?_⟩
    · rw [hs1, List.map_cons, ih1, hrep]
      simp
    · simp only [inputSum, reassignedSum] at ih2 ⊢
      rw [hs1]
      simp only [List.map_cons, List.sum_cons]
      have hz : (if rest = [] then (0 : Nat) else 0) = 0 := by
        split <;> rfl
      rw [hz] at ih2
      rw [if_neg (by simp : ¬ (c :: rest : List Coin) = [])]
      omega
    · intro c' hc' w' hw'
      rcases List.mem_cons.1 hc' with hEq | hMem
      · subst hEq
        rw [hw] at hw'
        obtain rfl := Option.some_inj.1 hw'
        refine ⟨_, List.mem_cons_of_mem _ (List.mem_cons_self _ _), rfl, rfl, rfl⟩
      · obtain ⟨tx, htx, h1, h2, h3⟩ := ih3 c' hMem w' hw'
        exact ⟨tx, List.mem_cons_of_mem _ (List.mem_cons_of_mem _ htx), h1, h2, h3⟩

/-- C7 (amended): for an existing trade whose primary coins all belong to
*standard* wallets (with adequate `select_coins`) — the only branch in which
the source performs shortfall selection — `cancel_pending_offer_safely`
re-spends every primary coin to its wallet's freshly derived puzzle hash
(differing from the original), charges the full fee to the first coin
processed and zero to the rest, produces a spend set whose total input equals
fee plus the reassigned amount (selection covering any shortfall), and
persists status `PENDING_CANCEL`, not `CANCELLED`.  For a non-standard
wallet the fee is handed to the wallet over the single coin with no
selection, and the total-input bound fails (see the counterexample). -/
theorem cancel_safely_spec (env : Env) (st : TMState) (tid : Nat) (fee : Nat)
    (trade : TradeRecord)
    (hfind : st.trades.find? (fun t => t.tradeId == tid) = some trade)
    (hwallets : ∀ c ∈ trade.offer.primaryCoins, ∃ w,
        env.walletForCoin c.name = some w ∧
        w.wtype = WalletType.standardWallet ∧
        (∀ amt excl, amt ≤ ((w.selectCoins amt excl).map Coin.amount).sum))
    (hfresh : ∀ c ∈ trade.offer.primaryCoins, ∀ w,
        env.walletForCoin c.name = some w → w.newPuzzleHash ≠ c.puzzleHash)
    (hne : trade.offer.primaryCoins ≠ []) :
    (cancelPendingOfferSafely env st tid fee).1 =
      some (cancelLoop env fee trade.offer.primaryCoins fee) ∧
    (∀ c ∈ trade.offer.primaryCoins, ∀ w, env.walletForCoin c.name = some w →
      ∃ tx ∈ cancelLoop env fee trade.offer.primaryCoins fee, tx.removals = [c] ∧
        tx.toPuzzleHash = w.newPuzzleHash ∧ tx.toPuzzleHash ≠ c.puzzleHash ∧
        tx.additions = [Coin.mk c.name w.newPuzzleHash c.amount]) ∧
    (spendTxs (cancelLoop env fee trade.offer.primaryCoins fee)).map
        (fun t => t.feeAmount) =
      fee :: List.replicate (trade.offer.primaryCoins.length - 1) 0 ∧
    inputSum (cancelLoop env fee trade.offer.primaryCoins fee) =
      fee + reassignedSum (cancelLoop env fee trade.offer.primaryCoins fee) ∧
    (∀ t ∈ (cancelPendingOfferSafely env st tid fee).2.trades,
        t.tradeId = tid → t.status = TradeStatus.pendingCancel) ∧
    TradeStatus.pendingCancel ≠ TradeStatus.cancelled := by
  obtain ⟨l1, l2, l3⟩ := cancelLoop_spec env fee trade.offer.primaryCoins fee hwallets
  have hres : cancelPendingOfferSafely env st tid fee =
      (some (cancelLoop env fee trade.offer.primaryCoins fee),
       { st with
          pendingTxs := st.pendingTxs ++
            (cancelLoop env fee trade.offer.primaryCoins fee).map
              (fun t => { t with feeAmount := fee }),
          trades := setStatus st.trades tid TradeStatus.pendingCancel none }) := by
    unfold cancelPendingOfferSafely
    rw [hfind]
  refine ⟨by rw [hres], ?_, ?_, ?_, ?_, by decide⟩
  · intro c hc w hw
    obtain ⟨tx, htx, h1, h2, h3⟩ := l3 c hc w hw
    refine ⟨tx, htx, h1, h2, ?_, h3⟩
    rw [h2]
    exact hfresh c hc w hw
  · rw [l1, if_neg hne]
  · rw [if_neg hne] at l2
    exact l2
  · intro t hmem hid
    rw [hres] at hmem
    exact setStatus_mem_status hmem hid

/-- C7-witness coins: the spec's example `{c1: 100, c2: 50}`. -/
def cancelC1 : Coin := ⟨3, 10, 100⟩

/-- Second primary coin of the C7 witness. -/
def cancelC2 : Coin := ⟨3, 11, 50⟩

/-- C7-witness wallet: standard, fresh hash 99, `select_coins` returning a
coin of exactly the requested amount. -/
def witWallet7 : WalletModel :=
  { exWallet with selectCoins := fun amt _ => [⟨4, 12, amt⟩] }

/-- C7-witness offer holding the two primary coins. -/
def witOffer7 : Offer := { emptyOffer with primaryCoins := [cancelC1, cancelC2] }

/-- C7-witness trade record. -/
def witTrade7 : TradeRecord :=
  { tradeId := 21, status := TradeStatus.pendingAccept, offer := witOffer7,
    coinsOfInterest := [cancelC1, cancelC2], confirmedAtIndex := none,
    isMyOffer := true }

/-- C7-witness environment. -/
def witEnv7 : Env := { baseEnv with walletForCoin := fun _ => some witWallet7 }

/-- C7-witness store state. -/
def witState7 : TMState :=
  { trades := [witTrade7], transactions := [], pendingTradeTxs := [], pendingTxs := [] }

/-- C7 witness: the theorem applied at the spec's `{c1: 100, c2: 50}`, fee 30
example. -/
theorem cancel_safely_spec_witness :
    (cancelPendingOfferSafely witEnv7 witState7 21 30).1 =
      some (cancelLoop witEnv7 30 witTrade7.offer.primaryCoins 30) ∧
    (∀ c ∈ witTrade7.offer.primaryCoins, ∀ w, witEnv7.walletForCoin c.name = some w →
      ∃ tx ∈ cancelLoop witEnv7 30 witTrade7.offer.primaryCoins 30, tx.removals = [c] ∧
        tx.toPuzzleHash = w.newPuzzleHash ∧ tx.toPuzzleHash ≠ c.puzzleHash ∧
        tx.additions = [Coin.mk c.name w.newPuzzleHash c.amount]) ∧
    (spendTxs (cancelLoop witEnv7 30 witTrade7.offer.primaryCoins 30)).map
        (fun t => t.feeAmount) =
      30 :: List.replicate (witTrade7.offer.primaryCoins.length - 1) 0 ∧
    inputSum (cancelLoop witEnv7 30 witTrade7.offer.primaryCoins 30) =
      30 + reassignedSum (cancelLoop witEnv7 30 witTrade7.offer.primaryCoins 30) ∧
    (∀ t ∈ (cancelPendingOfferSafely witEnv7 witState7 21 30).2.trades,
        t.tradeId = 21 → t.status = TradeStatus.pendingCancel) ∧
    TradeStatus.pendingCancel ≠ TradeStatus.cancelled :=
  cancel_safely_spec witEnv7 witState7 21 30 witTrade7 rfl
    (fun c _ => ⟨witWallet7, rfl, rfl, fun amt excl => by
      simp [witWallet7, exWallet]⟩)
    (fun c hc w hw => by
      obtain rfl := Option.some_inj.1 hw.symm
      rcases List.mem_cons.1 hc with rfl | hc2
      · decide
      · rcases List.mem_cons.1 hc2 with rfl | hc3
        · decide
        · exact absurd hc3 (by simp))
    (by decide)

/-- C7-counterexample coin: amount 20, below the fee of 30. -/
def cexCoin7 : Coin := ⟨5, 13, 20⟩

/-- C7-counterexample wallet: a non-standard (e.g. CAT) wallet. -/
def cexWallet7 : WalletModel := { exWallet with wtype := WalletType.other }

/-- C7-counterexample offer holding the single non-standard primary coin. -/
def cexOffer7 : Offer := { emptyOffer with primaryCoins := [cexCoin7] }

/-- C7-counterexample trade record. -/
def cexTrade7 : TradeRecord :=
  { tradeId := 22, status := TradeStatus.pendingAccept, offer := cexOffer7,
    coinsOfInterest := [cexCoin7], confirmedAtIndex := none, isMyOffer := true }

/-- C7-counterexample environment. -/
def cexEnv7 : Env := { baseEnv with walletForCoin := fun _ => some cexWallet7 }

/-- C7-counterexample store state. -/
def cexState7 : TMState :=
  { trades := [cexTrade7], transactions := [], pendingTradeTxs := [], pendingTxs := [] }

/-- C7 counterexample: an existing trade whose single primary coin belongs to
a *non-standard* wallet, cancelled with fee 30 exceeding the coin's amount
20.  The non-standard branch (source lines 245-249) passes only the coin
itself to `generate_signed_transaction` and performs no shortfall selection,
so the spend set's total input is 20 — strictly below fee plus the reassigned
amount (30 + 20) — refuting the claim's "selecting additional coins whenever
the fee exceeds that coin's value so that total input is at least fee plus
the reassigned amount" as stated over every existing trade. -/
theorem cancel_safely_claim_cex :
    (cancelPendingOfferSafely cexEnv7 cexState7 22 30).1 =
      some (cancelLoop cexEnv7 30 cexTrade7.offer.primaryCoins 30) ∧
    inputSum (cancelLoop cexEnv7 30 cexTrade7.offer.primaryCoins 30) = 20 ∧
    reassignedSum (cancelLoop cexEnv7 30 cexTrade7.offer.primaryCoins 30) = 20 ∧
    ¬ (30 + reassignedSum (cancelLoop cexEnv7 30 cexTrade7.offer.primaryCoins 30) ≤
        inputSum (cancelLoop cexEnv7 30 cexTrade7.offer.primaryCoins 30)) :=
  ⟨rfl, rfl, rfl, by decide⟩

end ChiaTrade
